import Mathlib

/-
Verification development for the simplifier-ig generation pipeline
(src/simplifier_ig). The Python sources are shallowly embedded below:
pure string/JSON manipulation is translated to Lean functions, and the
filesystem effects of a generation run are modelled as an explicitly
constructed list of path/content nodes. YAML/JSON serialisation is out of
scope of the core (the spec treats load/dump as external collaborators
with standard semantics), so a written toc.yaml is represented by its
entry list rather than by serialised bytes.
-/

namespace SimplifierIG

/-! ### Python string primitives (ASCII behaviour of str methods) -/

/-- Python `str.strip()` whitespace test, restricted to ASCII whitespace. -/
def isPySpace (c : Char) : Bool :=
  c = ' ' || c = '\t' || c = '\n' || c = '\r' || c = '\x0b' || c = '\x0c'

/-- Python `str.strip()` on the character list. -/
def stripChars (cs : List Char) : List Char :=
  ((cs.dropWhile isPySpace).reverse.dropWhile isPySpace).reverse

/-- Python `str.strip()`. -/
def pyStrip (s : String) : String :=
  ⟨stripChars s.data⟩

/-- Python `str.lower()` (ASCII). -/
def pyLower (s : String) : String :=
  ⟨s.data.map Char.toLower⟩

/-- Helper for Python `str.title()`: tracks whether the previous character
was a cased (alphabetic) character. -/
def titleAux : Bool → List Char → List Char
  | _, [] => []
  | prevCased, c :: rest =>
    if c.isAlpha then
      (if prevCased then c.toLower else c.toUpper) :: titleAux true rest
    else
      c :: titleAux false rest

/-- Python `str.title()` (ASCII): each maximal run of letters starts with an
upper-case letter, the rest of the run is lower-cased. -/
def pyTitle (s : String) : String :=
  ⟨titleAux false s.data⟩

/-- Replacement loop for Python `str.replace(old, new)`: leftmost,
non-overlapping occurrences. The fuel argument is the length of the
remaining text, which bounds the recursion because each step consumes at
least one character (`old` is nonempty at every call site). -/
def replaceFuel (old new : List Char) : Nat → List Char → List Char
  | 0, cs => cs
  | _ + 1, [] => []
  | fuel + 1, c :: rest =>
    if old.isPrefixOf (c :: rest) then
      new ++ replaceFuel old new fuel (List.drop (old.length - 1) rest)
    else
      c :: replaceFuel old new fuel rest

/-- Python `str.replace(old, new)` for a nonempty `old` (every call site in
the sources passes a nonempty pattern). -/
def pyReplace (s old new : String) : String :=
  if old.data.isEmpty then s
  else ⟨replaceFuel old.data new.data s.data.length s.data⟩

/-- Python `str.endswith`. -/
def strEndsWith (s suffix : String) : Bool :=
  suffix.data.isSuffixOf s.data

/-- Python `str.startswith`. -/
def strStartsWith (s prefixStr : String) : Bool :=
  prefixStr.data.isPrefixOf s.data

/-! ### Code-point lexicographic order on strings (Python `<` on `str`) -/

/-- Strict lexicographic order on character lists by code point. -/
def clLt : List Char → List Char → Bool
  | [], [] => false
  | [], _ :: _ => true
  | _ :: _, [] => false
  | a :: as, b :: bs =>
    if a.toNat < b.toNat then true
    else if b.toNat < a.toNat then false
    else clLt as bs

/-- Python `a < b` on strings. -/
def strLtB (a b : String) : Bool :=
  clLt a.data b.data

/-- Python `a <= b` on strings. -/
def strLeB (a b : String) : Bool :=
  !(strLtB b a)

theorem clLt_asymm : ∀ {a b : List Char}, clLt a b = true → clLt b a = false
  | [], [], h => by simp [clLt] at h
  | [], _ :: _, _ => by simp [clLt]
  | _ :: _, [], h => by simp [clLt] at h
  | a :: as, b :: bs, h => by
    simp only [clLt] at h ⊢
    by_cases hab : a.toNat < b.toNat
    · have hba : ¬ b.toNat < a.toNat := Nat.lt_asymm hab
      simp [hab, hba]
    · by_cases hba : b.toNat < a.toNat
      · simp [hab, hba] at h
      · simp only [hab, hba, if_false] at h ⊢
        exact clLt_asymm h

theorem clLt_trans : ∀ {a b c : List Char},
    clLt a b = true → clLt b c = true → clLt a c = true
  | [], [], _, h, _ => by simp [clLt] at h
  | [], _ :: _, [], _, h => by simp [clLt] at h
  | [], _ :: _, _ :: _, _, _ => by simp [clLt]
  | _ :: _, [], _, h, _ => by simp [clLt] at h
  | _ :: _, _ :: _, [], _, h => by simp [clLt] at h
  | a :: as, b :: bs, c :: cs, h₁, h₂ => by
    simp only [clLt] at h₁ h₂ ⊢
    by_cases hab : a.toNat < b.toNat
    · by_cases hbc : b.toNat < c.toNat
      · simp [Nat.lt_trans hab hbc]
      · by_cases hcb : c.toNat < b.toNat
        · simp [hbc, hcb] at h₂
        · have hbc' : b.toNat = c.toNat := Nat.le_antisymm (Nat.le_of_not_lt hcb) (Nat.le_of_not_lt hbc)
          simp [hbc' ▸ hab]
    · by_cases hba : b.toNat < a.toNat
      · simp [hab, hba] at h₁
      · have hab' : a.toNat = b.toNat := Nat.le_antisymm (Nat.le_of_not_lt hba) (Nat.le_of_not_lt hab)
        simp only [hab, hba, if_false] at h₁
        by_cases hbc : b.toNat < c.toNat
        · simp [hab' ▸ hbc]
        · by_cases hcb : c.toNat < b.toNat
          · simp [hbc, hcb] at h₂
          · simp only [hbc, hcb, if_false] at h₂
            simp only [hab' ▸ hbc, hab' ▸ hcb, if_false]
            exact clLt_trans h₁ h₂

theorem char_eq_of_toNat_eq {a b : Char} (h : a.toNat = b.toNat) : a = b :=
  Char.ext (UInt32.ext h)

theorem clLt_conn : ∀ {a b : List Char},
    clLt a b = false → clLt b a = false → a = b
  | [], [], _, _ => rfl
  | [], _ :: _, h, _ => by simp [clLt] at h
  | _ :: _, [], _, h => by simp [clLt] at h
  | a :: as, b :: bs, h₁, h₂ => by
    simp only [clLt] at h₁ h₂
    by_cases hab : a.toNat < b.toNat
    · simp [hab] at h₁
    · by_cases hba : b.toNat < a.toNat
      · simp [hab, hba] at h₁ h₂
      · have hab' : a.toNat = b.toNat := Nat.le_antisymm (Nat.le_of_not_lt hba) (Nat.le_of_not_lt hab)
        simp only [hab, hba, if_false] at h₁ h₂
        have := clLt_conn h₁ h₂
        rw [char_eq_of_toNat_eq hab', this]

theorem strLeB_total (a b : String) : strLeB a b = true ∨ strLeB b a = true := by
  simp only [strLeB, strLtB, Bool.not_eq_true']
  by_cases h : clLt b.data a.data = true
  · right
    exact clLt_asymm h
  · left
    simpa using h

theorem strLeB_trans {a b c : String} (h₁ : strLeB a b = true) (h₂ : strLeB b c = true) :
    strLeB a c = true := by
  simp only [strLeB, strLtB, Bool.not_eq_true'] at h₁ h₂ ⊢
  by_contra h
  simp only [Bool.not_eq_false] at h
  have hcb_or : clLt c.data b.data = false := h₂
  have hba_or : clLt b.data a.data = false := h₁
  by_cases hbc : clLt b.data c.data = true
  · exact absurd (clLt_trans hbc h) (by simp [hba_or])
  · have : b.data = c.data := clLt_conn (by simpa using hbc) hcb_or
    have : clLt b.data a.data = true := by
      have hd : c.data = b.data := this.symm
      rw [← hd]; exact h
    simp [hba_or] at this

theorem strLeB_conn {a b : String} (h₁ : strLeB a b = true) (hne : a ≠ b) :
    strLtB a b = true := by
  simp only [strLeB, Bool.not_eq_true'] at h₁
  by_cases h : strLtB a b = true
  · exact h
  · exfalso
    apply hne
    have hd := clLt_conn (a := a.data) (b := b.data) (by simpa [strLtB] using h) h₁
    exact congrArg String.mk hd

/-! ### pathlib-style name splitting (`Path.stem` / `Path.suffix`) -/

/-- Index of the last `.` in a character list, if any. -/
def lastDotIdx (cs : List Char) : Option Nat :=
  match cs.reverse.findIdx? (· = '.') with
  | none => none
  | some k => some (cs.length - 1 - k)

/-- Embeds `pathlib.PurePath.suffix` of a file name: the final `"."`-extension, or
`""` when the dot is leading, trailing or absent. -/
def pathSuffix (name : String) : String :=
  match lastDotIdx name.data with
  | none => ""
  | some i => if 0 < i ∧ i < name.data.length - 1 then ⟨name.data.drop i⟩ else ""

/-- Embeds `pathlib.PurePath.stem` of a file name. -/
def pathStem (name : String) : String :=
  match lastDotIdx name.data with
  | none => name
  | some i => if 0 < i ∧ i < name.data.length - 1 then ⟨name.data.take i⟩ else name

/-! ### Parsed YAML/JSON values (`yaml.safe_load` / `json.load` results) -/

inductive JVal where
  | null
  | bool (b : Bool)
  | num (n : Int)
  | str (s : String)
  | arr (xs : List JVal)
  | obj (fields : List (String × JVal))

/-- Mapping lookup (`config.get(key)`); `none` both when the receiver is not
a mapping and when the key is absent. Keys of loaded mappings are unique. -/
def lookupField : List (String × JVal) → String → Option JVal
  | [], _ => none
  | (k', v) :: rest, k => if k' = k then some v else lookupField rest k

def JVal.get : JVal → String → Option JVal
  | .obj fields, k => lookupField fields k
  | _, _ => none

/-- Python truthiness of a loaded YAML/JSON value. -/
def JVal.truthy : JVal → Bool
  | .null => false
  | .bool b => b
  | .num n => n != 0
  | .str s => s != ""
  | .arr xs => !xs.isEmpty
  | .obj fs => !fs.isEmpty

mutual

/-- Size of a loaded value, bounding recursion depth in `pyStr`. -/
def jSize : JVal → Nat
  | .null => 1
  | .bool _ => 1
  | .num _ => 1
  | .str _ => 1
  | .arr xs => 1 + jSizeList xs
  | .obj fs => 1 + jSizeFields fs

def jSizeList : List JVal → Nat
  | [] => 0
  | x :: xs => 1 + jSize x + jSizeList xs

def jSizeFields : List (String × JVal) → Nat
  | [] => 0
  | kv :: fs => 1 + jSize kv.2 + jSizeFields fs

end

/-- Python `repr` of a loaded value (containers as in `str(list)/str(dict)`),
with recursion bounded by `jSize`, which the top-level wrapper supplies. -/
def pyReprFuel : Nat → JVal → String
  | _, .null => "None"
  | _, .bool b => if b then "True" else "False"
  | _, .num n => toString n
  | _, .str s => "\x27" ++ s ++ "\x27"
  | 0, .arr _ => ""
  | 0, .obj _ => ""
  | fuel + 1, .arr xs =>
    "[" ++ String.intercalate ", " (xs.map (pyReprFuel fuel)) ++ "]"
  | fuel + 1, .obj fs =>
    "\x7b" ++
      String.intercalate ", "
        (fs.map (fun kv => "\x27" ++ kv.1 ++ "\x27: " ++ pyReprFuel fuel kv.2)) ++
      "\x7d"

/-- Python `str()` of a loaded value. -/
def pyStr (v : JVal) : String :=
  match v with
  | .str s => s
  | .null => "None"
  | .bool b => if b then "True" else "False"
  | .num n => toString n
  | .arr xs => pyReprFuel (jSize (.arr xs)) (.arr xs)
  | .obj fs => pyReprFuel (jSize (.obj fs)) (.obj fs)

/-! ### The generated output tree, modelled as an ordered list of nodes -/

structure TocEntry where
  name : String
  filename : String
deriving DecidableEq

/-- Contents of a generated file. `tocYaml` stands for the `dump_yaml`
serialisation of the entry list: the dumper is an external collaborator
with deterministic output, so equal entry lists mean identical bytes. -/
inductive Content where
  | text (s : String)
  | tocYaml (entries : List TocEntry)
deriving DecidableEq

inductive Item where
  | dirItem
  | fileItem (c : Content)
deriving DecidableEq

/-- One filesystem effect: a directory created or a file written at a
path (components relative to the guide output directory). -/
structure Node where
  path : List String
  item : Item
deriving DecidableEq

abbrev Tree := List Node

/-- Order-preserving deduplication (first occurrence wins), used to read a
directory listing off the effect list. -/
def dedupAux [BEq α] (seen : List α) : List α → List α
  | [] => []
  | a :: as => if seen.contains a then dedupAux seen as else a :: dedupAux (a :: seen) as

def dedupKeepFirst [BEq α] (l : List α) : List α :=
  dedupAux [] l

/-- The name `x` when `q` is an immediate child path of `p`. -/
def immChildName (p q : List String) : Option String :=
  if p.isPrefixOf q && q.length == p.length + 1 then q.getLast? else none

/-- Names of the immediate subdirectories of `p` (the directory part of
`Path.iterdir`). -/
def dirChildNames (t : Tree) (p : List String) : List String :=
  dedupKeepFirst (t.filterMap fun n =>
    match n.item with
    | .dirItem => immChildName p n.path
    | _ => none)

/-- Names of the immediate files of `p`. -/
def fileChildNames (t : Tree) (p : List String) : List String :=
  dedupKeepFirst (t.filterMap fun n =>
    match n.item with
    | .fileItem _ => immChildName p n.path
    | _ => none)

def isDirAt (t : Tree) (p : List String) : Bool :=
  t.any fun n => n.path == p && n.item == .dirItem

def isFileAt (t : Tree) (p : List String) : Bool :=
  t.any fun n =>
    n.path == p &&
      (match n.item with
       | .fileItem _ => true
       | _ => false)

/-- Content of the file at `p`: the last write wins, as on a real
filesystem. -/
def contentAt (t : Tree) (p : List String) : Option Content :=
  (t.filterMap fun n =>
    match n.item with
    | .fileItem c => if n.path = p then some c else none
    | _ => none).getLast?

/-! ### Sorting (`sorted(...)` is the unique stable sort for these keys) -/

def strLeR : String → String → Prop := fun a b => strLeB a b = true

instance : DecidableRel strLeR := fun a b => by
  unfold strLeR
  infer_instance

instance : IsTotal String strLeR :=
  ⟨fun a b => strLeB_total a b⟩

instance : IsTrans String strLeR :=
  ⟨fun _ _ _ => strLeB_trans⟩

/-- Embeds `sorted(names)` for plain string lists. -/
def sortStrings (l : List String) : List String :=
  l.insertionSort strLeR

/-- Sort key flag of `files.sort(key=lambda f: (0 if f.name.lower() ==
"index.page.md" else 1, f.name))`. -/
def tocFileKey (name : String) : Nat :=
  if pyLower name = "index.page.md" then 0 else 1

def tocFileLe (a b : String) : Prop :=
  tocFileKey a < tocFileKey b ∨ (tocFileKey a = tocFileKey b ∧ strLeB a b = true)

instance : DecidableRel tocFileLe := fun a b => by
  unfold tocFileLe
  infer_instance

instance : IsTotal String tocFileLe := by
  constructor
  intro a b
  rcases Nat.lt_trichotomy (tocFileKey a) (tocFileKey b) with h | h | h
  · exact Or.inl (Or.inl h)
  · rcases strLeB_total a b with hs | hs
    · exact Or.inl (Or.inr ⟨h, hs⟩)
    · exact Or.inr (Or.inr ⟨h.symm, hs⟩)
  · exact Or.inr (Or.inl h)

instance : IsTrans String tocFileLe := by
  constructor
  intro a b c hab hbc
  rcases hab with h₁ | ⟨h₁, hs₁⟩
  · rcases hbc with h₂ | ⟨h₂, _⟩
    · exact Or.inl (Nat.lt_trans h₁ h₂)
    · exact Or.inl (h₂ ▸ h₁)
  · rcases hbc with h₂ | ⟨h₂, hs₂⟩
    · exact Or.inl (h₁ ▸ h₂)
    · exact Or.inr ⟨h₁.trans h₂, strLeB_trans hs₁ hs₂⟩

/-- Embeds `files.sort(key=...)` of `_generate_toc_for_directory`. -/
def sortTocFiles (l : List String) : List String :=
  l.insertionSort tocFileLe

/-- Lexicographic order on path component lists: how `sorted()` compares
`pathlib.Path` objects (tuple comparison over parts). -/
def pathLtB : List String → List String → Bool
  | [], [] => false
  | [], _ :: _ => true
  | _ :: _, [] => false
  | a :: as, b :: bs =>
    if strLtB a b then true
    else if strLtB b a then false
    else pathLtB as bs

def pathLeR : List String → List String → Prop := fun a b => (!(pathLtB b a)) = true

instance : DecidableRel pathLeR := fun a b => by
  unfold pathLeR
  infer_instance

def sortPaths (l : List (List String)) : List (List String) :=
  l.insertionSort pathLeR

/-! ### utils.py -/

/-- Embeds `utils.format_title`. -/
def formatTitle (name : String) : String :=
  if name = "" then name
  else if pyLower name = "index" then "Index"
  else pyTitle (pyReplace (pyReplace name ("-") (" ")) ("_") (" "))

/-- Embeds `utils.is_subpath`: `child` equals or lies under `parent`. -/
def isSubpath (child parent : List String) : Bool :=
  parent.isPrefixOf child

/-! ### generator.py: template variable resolution -/

/-- The literal head of the placeholder pattern. -/
def igVarLit : List Char := "\x7b\x7big-var:".data

def rbrb : List Char := "\x7d\x7d".data

/-- One attempted regex match of `\x7b\x7big-var:\s*([^\x7d]+)\s*\x7d\x7d`
at the head of `cs`.  The whole segment up to the first `\x7d` is returned;
its `strip` is the captured variable name (the greedy split between `\s*`
and `([^\x7d]+)` strips the same whitespace). -/
def findVarMatch (cs : List Char) : Option (List Char × List Char) :=
  if igVarLit.isPrefixOf cs then
    let rest := cs.drop igVarLit.length
    let seg := rest.takeWhile (fun c => c ≠ '\x7d')
    let rest2 := rest.drop seg.length
    if seg.isEmpty then none
    else if rbrb.isPrefixOf rest2 then some (seg, rest2.drop 2)
    else none
  else none

/-- Embeds `variables.get(var_name)` over the two-entry variable mappings. -/
def lookupStr : List (String × String) → String → Option String
  | [], _ => none
  | (k, v) :: rest, key => if k = key then some v else lookupStr rest key

/-- The `re.sub` scan: leftmost match, continue after the match end;
an unmatched position emits its character, an unresolved match emits the
matched text verbatim (`m.group(0)`). Fuel is the remaining length. -/
def resolveAux (vars : List (String × String)) : Nat → List Char → List Char
  | 0, cs => cs
  | _ + 1, [] => []
  | fuel + 1, c :: cs =>
    match findVarMatch (c :: cs) with
    | some (seg, rest) =>
      (match lookupStr vars (pyStrip ⟨seg⟩) with
       | some v => v.data
       | none => igVarLit ++ seg ++ rbrb) ++ resolveAux vars fuel rest
    | none => c :: resolveAux vars fuel cs

/-- Embeds `IGGenerator._resolve_template_variables`. -/
def resolveTemplateVariables (template : String) (vars : List (String × String)) : String :=
  ⟨resolveAux vars template.data.length template.data⟩

/-- The placeholder text the pattern matches: `\x7b\x7big-var:<seg>\x7d\x7d`. -/
def mkPlaceholder (seg : String) : String :=
  ⟨igVarLit ++ seg.data ++ rbrb⟩

/-! ### generator.py: FHIR resource parsing -/

/-- One `*.json` input file: its name and the `json.load` outcome
(`none` = the load raised). -/
structure SrcJson where
  name : String
  parsed : Option JVal

structure Info where
  resourceType : String
  id : String
  filename : String
  url : String
deriving DecidableEq

def truthyOpt : Option JVal → Bool
  | none => false
  | some v => v.truthy

/-- Embeds `IGGenerator._parse_fhir_resource`. The stored `url` is the string form
of the resource's `url` when the key is present, else `""`. -/
def parseFhirResource (f : SrcJson) : Option Info :=
  if pyLower (pathSuffix f.name) ≠ ".json" then none
  else
    match f.parsed with
    | none => none
    | some resource =>
      let rt := resource.get "resourceType"
      let rid := resource.get "id"
      if truthyOpt rt && truthyOpt rid then
        some
          { resourceType := pyStr (rt.getD .null)
            id := pyStr (rid.getD .null)
            filename := pathStem f.name
            url := pyStr ((resource.get "url").getD (.str "")) }
      else none

/-! ### Inserting/removing a skipped element commutes with sort+filterMap -/

/-- Holds when `L1` is `L2` with `x` inserted at one position. -/
def InsertedAt (x : α) (L1 L2 : List α) : Prop :=
  ∃ p q, L1 = p ++ x :: q ∧ L2 = p ++ q

theorem insertedAt_cons {x c : α} {L1 L2 : List α} (h : InsertedAt x L1 L2) :
    InsertedAt x (c :: L1) (c :: L2) := by
  obtain ⟨p, q, h1, h2⟩ := h
  exact ⟨c :: p, q, by simp [h1], by simp [h2]⟩

theorem orderedInsert_self_inserted (r : α → α → Prop) [DecidableRel r] (x : α) :
    ∀ L : List α, InsertedAt x (L.orderedInsert r x) L
  | [] => ⟨[], [], rfl, rfl⟩
  | y :: ys => by
    by_cases h : r x y
    · exact ⟨[], y :: ys, by simp [List.orderedInsert, h], rfl⟩
    · have := orderedInsert_self_inserted r x ys
      obtain ⟨p, q, h1, h2⟩ := this
      exact ⟨y :: p, q, by simp [List.orderedInsert, h, h1], by simp [h2]⟩

theorem inserted_orderedInsert (r : α → α → Prop) [DecidableRel r] [IsTrans α r]
    (a x : α) :
    ∀ p q : List α, List.Sorted r (p ++ x :: q) →
      InsertedAt x ((p ++ x :: q).orderedInsert r a) ((p ++ q).orderedInsert r a)
  | [], q, hs => by
    simp only [List.nil_append, List.orderedInsert]
    by_cases h : r a x
    · simp only [if_pos h]
      match q with
      | [] => exact ⟨[a], [], by simp, by simp [List.orderedInsert]⟩
      | y :: ys =>
        have hxy : r x y := (List.sorted_cons.mp hs).1 y (by simp)
        have hay : r a y := Trans.trans h hxy
        exact ⟨[a], y :: ys, by simp, by simp [List.orderedInsert, hay]⟩
    · simp only [if_neg h]
      exact ⟨[], q.orderedInsert r a, rfl, rfl⟩
  | y :: p, q, hs => by
    simp only [List.cons_append, List.orderedInsert]
    by_cases h : r a y
    · simp only [if_pos h]
      exact ⟨a :: y :: p, q, by simp, by simp⟩
    · simp only [if_neg h]
      exact insertedAt_cons
        (inserted_orderedInsert r a x p q (List.sorted_cons.mp (by simpa using hs)).2)

theorem insertionSort_inserted (r : α → α → Prop) [DecidableRel r]
    [IsTotal α r] [IsTrans α r] (x : α) :
    ∀ l1 l2 : List α,
      InsertedAt x ((l1 ++ x :: l2).insertionSort r) ((l1 ++ l2).insertionSort r)
  | [], l2 => by
    simpa [List.insertionSort] using
      orderedInsert_self_inserted r x (l2.insertionSort r)
  | a :: l1, l2 => by
    have ih := insertionSort_inserted r x l1 l2
    obtain ⟨p, q, h1, h2⟩ := ih
    have hs : List.Sorted r (p ++ x :: q) :=
      h1 ▸ List.sorted_insertionSort r (l1 ++ x :: l2)
    simpa [List.insertionSort, h1, h2] using inserted_orderedInsert r a x p q hs

theorem filterMap_insertedAt {f : α → Option β} {x : α} {L1 L2 : List α}
    (hx : f x = none) (h : InsertedAt x L1 L2) : L1.filterMap f = L2.filterMap f := by
  obtain ⟨p, q, h1, h2⟩ := h
  simp [h1, h2, List.filterMap_append, List.filterMap_cons, hx]

theorem filterMap_insertionSort_middle_none (r : α → α → Prop) [DecidableRel r]
    [IsTotal α r] [IsTrans α r] {f : α → Option β} {x : α} (hx : f x = none)
    (l1 l2 : List α) :
    ((l1 ++ x :: l2).insertionSort r).filterMap f =
      ((l1 ++ l2).insertionSort r).filterMap f :=
  filterMap_insertedAt hx (insertionSort_inserted r x l1 l2)

/-! ### generator.py: the input folder model -/

/-- A root YAML file: its raw bytes and its `yaml.safe_load` outcome
(`none` = the load raised). -/
structure SrcFile where
  raw : String
  parsed : Option JVal

/-- One file under `pages/`: parent directory components relative to
`pages/`, its name, and its content. -/
structure PageFile where
  parent : List String
  name : String
  content : String

/-- A directory tree copied verbatim (`shutil.copytree` source): its
directory relative paths and its files. -/
structure DirTree where
  dirs : List (List String)
  files : List (List String × String)

/-- The input folder, as the generator reads it. `pagetemplatesArtifacts`
maps file names under `pagetemplates-artifacts/` to their text. -/
structure InputModel where
  guideYaml : Option SrcFile
  variablesYaml : Option SrcFile
  pagetemplatesArtifacts : Option (List (String × String))
  pages : Option (List PageFile)
  resources : Option (List SrcJson)
  examples : Option (List SrcJson)
  styles : Option DirTree
  images : Option DirTree
  pagetemplates : Option DirTree

/-! ### generator.py: configuration and template loading -/

/-- Embeds `IGGenerator._load_guide_config`: yields the parsed config and the
guide name (trimmed `url-key`). -/
def loadGuideConfig (inp : InputModel) : Except String (JVal × String) :=
  match inp.guideYaml with
  | none => .error "guide.yaml not found"
  | some f =>
    match f.parsed with
    | none => .error "Unexpected error during generation"
    | some config =>
      if !config.truthy then .error "guide.yaml is empty or invalid"
      else
        match config.get "url-key" with
        | none => .error "Could not find url-key in guide.yaml"
        | some uk =>
          if !uk.truthy then .error "Could not find url-key in guide.yaml"
          else
            let guideName := pyStrip (pyStr uk)
            if guideName = "" then .error "url-key is empty in guide.yaml"
            else .ok (config, guideName)

/-- The fixed template file names of `IGGenerator._load_templates`. -/
def templateFiles : List (String × String) :=
  [("CodeSystem", "codesystem.md"),
   ("StructureDefinition", "structuredefinition.md"),
   ("ValueSet", "valueset.md"),
   ("Example", "examples.md")]

/-- Embeds `IGGenerator._load_templates`: resource kind to template text. -/
def loadTemplates (inp : InputModel) : List (String × String) :=
  match inp.pagetemplatesArtifacts with
  | none => []
  | some files =>
    templateFiles.filterMap fun kv =>
      (lookupStr files kv.2).map fun text => (kv.1, text)

/-! ### generator.py: output construction -/

/-- Directory marks for every nonempty prefix of `p`
(`mkdir(parents=True, exist_ok=True)`). -/
def mkdirsFor (p : List String) : Tree :=
  (List.range p.length).map fun i => { path := p.take (i + 1), item := .dirItem }

/-- Embeds `shutil.copytree src dst`. -/
def copyTree (dst : List String) (src : DirTree) : Tree :=
  { path := dst, item := Item.dirItem } ::
    (src.dirs.map fun d => { path := dst ++ d, item := Item.dirItem }) ++
      src.files.map fun pc => { path := dst ++ pc.1, item := .fileItem (.text pc.2) }

/-- Embeds `IGGenerator._copy_root_files`. -/
def copyRootFiles (inp : InputModel) : Tree :=
  (match inp.guideYaml with
   | some f => [{ path := ["guide.yaml"], item := .fileItem (.text f.raw) }]
   | none => []) ++
  (match inp.variablesYaml with
   | some f => [{ path := ["variables.yaml"], item := .fileItem (.text f.raw) }]
   | none => []) ++
  (match inp.styles with
   | some st => copyTree ["styles"] st
   | none => []) ++
  (match inp.images with
   | some im => copyTree ["Home", "images"] im
   | none => [])

/-- The renaming of `IGGenerator._transform_pages`: Markdown files become
`<lowercased-stem>.page.md`, others keep their name. -/
def transformPageName (name : String) : String :=
  if pyLower (pathSuffix name) = ".md" then pyLower (pathStem name) ++ ".page.md"
  else name

/-- Embeds `IGGenerator._transform_pages`: the writes and the file count. -/
def transformPages (pages : List PageFile) : Tree × Nat :=
  ((pages.map fun pf =>
      mkdirsFor ("Home" :: pf.parent) ++
        [{ path := "Home" :: pf.parent ++ [transformPageName pf.name],
           item := .fileItem (.text pf.content) }]).flatten,
   pages.length)

/-- Embeds `IGGenerator._copy_pagetemplates`. -/
def copyPagetemplatesTree (inp : InputModel) : Tree :=
  match inp.pagetemplates with
  | some pt => copyTree ["Home", "pagetemplates"] pt
  | none => []

/-! ### generator.py: artifact pages -/

def nameLeJson : SrcJson → SrcJson → Prop := fun a b => strLeB a.name b.name = true

instance : DecidableRel nameLeJson := fun a b => by
  unfold nameLeJson
  infer_instance

instance : IsTotal SrcJson nameLeJson :=
  ⟨fun a b => strLeB_total a.name b.name⟩

instance : IsTrans SrcJson nameLeJson :=
  ⟨fun _ _ _ => strLeB_trans⟩

/-- Embeds `sorted(dir.glob("*.json"))`. -/
def globJsonSorted (files : List SrcJson) : List SrcJson :=
  (files.filter fun f => strEndsWith f.name (".json")).insertionSort nameLeJson

/-- The parsed resources of one directory, in processing order. -/
def parsedResources (files : List SrcJson) : List Info :=
  (globJsonSorted files).filterMap parseFhirResource

/-- Embeds `defaultdict(list)` grouping by `resourceType` preserving first-seen
key order and appending values. -/
def groupInsert (i : Info) : List (String × List Info) → List (String × List Info)
  | [] => [(i.resourceType, [i])]
  | (k, xs) :: rest =>
    if k = i.resourceType then (k, xs ++ [i]) :: rest
    else (k, xs) :: groupInsert i rest

def groupByType (l : List Info) : List (String × List Info) :=
  l.foldl (fun groups i => groupInsert i groups) []

def lookupGroup (groups : List (String × List Info)) (rt : String) : List Info :=
  ((groups.find? fun kv => decide (kv.1 = rt)).map (·.2)).getD []

/-- Embeds `sum(len(v) for v in resources_by_type.values())`. -/
def resourceCountOf (groups : List (String × List Info)) : Nat :=
  (groups.map fun kv => kv.2.length).sum

/-- The fixed `Home/artifacts/index.page.md` body. -/
def artifactsIndexBody : String :=
  "## \x7b\x7bpage-title\x7d\x7d\n\nThis section contains all the FHIR artifacts defined in this Implementation Guide.\n\n\x7b\x7bindex:children\x7d\x7d\n"

/-- Content of one resource artifact page (template or fallback). -/
def renderResourcePage (templates : List (String × String)) (rt : String) (i : Info) : String :=
  let template := (lookupStr templates rt).getD ""
  if template ≠ "" then
    resolveTemplateVariables template [("file-name", i.id), (rt ++ ".url", i.url)]
  else
    "# " ++ i.id ++ "\n\n*Resource Type: " ++ rt ++ "*\n\n<!-- No template found for " ++
      rt ++ " -->\n"

/-- Content of one example artifact page (template or fallback). -/
def renderExamplePage (templates : List (String × String)) (i : Info) : String :=
  let template := (lookupStr templates "Example").getD ""
  if template ≠ "" then
    resolveTemplateVariables template
      [("file-name", i.id), ("Resource.id", i.id),
       ("ResourceType/Resource.id", i.resourceType ++ "/" ++ i.id)]
  else
    "# " ++ i.id ++ "\n\n*Example of " ++ i.resourceType ++
      "*\n\n<!-- No template found for examples -->\n"

/-- The writes of one resource type: its directory and one page per
resource, in processing order. -/
def typeWrites (templates : List (String × String)) (rt : String)
    (resources : List Info) : Tree :=
  { path := ["Home", "artifacts", pyLower rt], item := Item.dirItem } ::
    resources.map fun i =>
      { path := ["Home", "artifacts", pyLower rt, i.id ++ ".page.md"],
        item := .fileItem (.text (renderResourcePage templates rt i)) }

structure ArtifactsOut where
  writes : Tree
  resourcesByType : List (String × List Info)
  examplesList : List Info

/-- Embeds `IGGenerator._generate_artifacts`. -/
def artifactsPhase (templates : List (String × String))
    (resources examples : Option (List SrcJson)) : ArtifactsOut :=
  let idx : Tree :=
    [{ path := ["Home", "artifacts"], item := Item.dirItem },
     { path := ["Home", "artifacts", "index.page.md"],
       item := .fileItem (.text artifactsIndexBody) }]
  let groups :=
    match resources with
    | some fs => groupByType (parsedResources fs)
    | none => []
  let resWrites :=
    ((sortStrings (groups.map (·.1))).map fun rt =>
      typeWrites templates rt (lookupGroup groups rt)).flatten
  let exList :=
    match examples with
    | some fs => parsedResources fs
    | none => []
  let exWrites : Tree :=
    match examples with
    | none => []
    | some fs =>
      { path := ["Home", "artifacts", "examples"], item := Item.dirItem } ::
        (parsedResources fs).map fun i =>
          { path := ["Home", "artifacts", "examples", i.id ++ ".page.md"],
            item := .fileItem (.text (renderExamplePage templates i)) }
  { writes := idx ++ resWrites ++ exWrites
    resourcesByType := groups
    examplesList := exList }

/-- Embeds `IGGenerator._copy_artifact_index_pages`: writes plus the recorded
resource types that received a custom index. -/
def copyArtifactIndexPages (inp : InputModel) : Tree × List String :=
  match inp.pagetemplatesArtifacts with
  | none => ([], [])
  | some files =>
    let idxNames :=
      sortStrings ((files.map (·.1)).filter fun n => strEndsWith n (".index.md"))
    (((idxNames.map fun n =>
        let rt := pyReplace (pathStem n) (".index") ("")
        mkdirsFor ["Home", "artifacts", rt] ++
          [{ path := ["Home", "artifacts", rt, "index.page.md"],
             item := .fileItem (.text ((lookupStr files n).getD "")) }])).flatten,
     idxNames.map fun n => pyReplace (pathStem n) (".index") (""))

/-! ### generator.py: table-of-contents generation -/

/-- Display name of a `.page.md` file in an auto-derived TOC
(`_generate_toc_for_directory`, file branch). -/
def tocDisplayFile (fname : String) : String :=
  let stem := pyReplace fname (".page.md") ("")
  if pyLower stem = "index" then "Index"
  else pyTitle (pyReplace stem ("-") (" "))

/-- Display name of a subdirectory in an auto-derived TOC. -/
def tocDisplayDir (dn : String) : String :=
  if pyLower dn = "artifacts" then "Artifacts"
  else pyTitle (pyReplace dn ("-") (" "))

/-- The `.page.md` files of a directory listing that survive the
`_generate_toc_for_directory` filter. -/
def tocEligibleFiles (t : Tree) (dir : List String) : List String :=
  (fileChildNames t dir).filter fun n =>
    n ≠ "toc.yaml" && n ≠ "pagetemplates" && strEndsWith n (".page.md")

/-- The visible subdirectories of a directory listing that survive the
`_generate_toc_for_directory` filter. -/
def tocEligibleDirs (t : Tree) (dir : List String) : List String :=
  (dirChildNames t dir).filter fun n =>
    n ≠ "toc.yaml" && n ≠ "pagetemplates" &&
      !(strStartsWith n (".")) && !(strStartsWith n ("_"))

/-- Embeds `IGGenerator._generate_toc_for_directory`. -/
def generateTocForDirectory (t : Tree) (dir : List String) : List TocEntry :=
  let files := sortTocFiles (tocEligibleFiles t dir)
  let dirs := sortStrings (tocEligibleDirs t dir)
  files.map (fun n => { name := tocDisplayFile n, filename := n }) ++
    dirs.map fun n => { name := tocDisplayDir n, filename := n }

/-- Splitting a name into its `/`-separated pieces. -/
def splitSlashAux : List Char → List Char → List (List Char)
  | [], acc => [acc.reverse]
  | c :: rest, acc =>
    if c = '/' then acc.reverse :: splitSlashAux rest []
    else splitSlashAux rest (c :: acc)

def splitSlash (s : String) : List String :=
  (splitSlashAux s.data []).map fun cs => (⟨cs⟩ : String)

/-- Embeds `Path joinpath` with a possibly multi-component relative name: split on
`/` and drop empty components (absolute-path menu values are not
modelled). -/
def joinRel (base : List String) (s : String) : List String :=
  base ++ (splitSlash s).filter (· ≠ "")

/-- One menu item of `_generate_home_toc`: boolean `true` references a
lower-cased same-named folder, a `.md` string references the renamed page,
any other string references a literal folder; each only if the target
exists. -/
def resolveMenuEntry (t : Tree) (displayName : String) (v : JVal) : Option TocEntry :=
  match v with
  | .bool true =>
    let folderName := pyLower displayName
    if isDirAt t (joinRel ["Home"] folderName) then
      some { name := displayName, filename := folderName }
    else none
  | .str s =>
    if strEndsWith (pyLower s) (".md") then
      let pageName := pyReplace s (".md") (".page.md")
      if isFileAt t (joinRel ["Home"] pageName) then
        some { name := displayName, filename := pageName }
      else none
    else if isDirAt t (joinRel ["Home"] s) then
      some { name := displayName, filename := s }
    else none
  | _ => none

/-- The `home_toc` list built from the `menu` mapping. -/
def homeTocEntries (t : Tree) (menuItems : List (String × JVal)) : List TocEntry :=
  menuItems.filterMap fun kv => resolveMenuEntry t kv.1 kv.2

/-- Embeds `IGGenerator._generate_home_toc`: the writes it performs (one file or
none). -/
def generateHomeToc (t : Tree) (config : JVal) : Tree :=
  match config.get "menu" with
  | some (.obj menuItems) =>
    let homeToc := homeTocEntries t menuItems
    if homeToc.isEmpty then []
    else [{ path := ["Home", "toc.yaml"], item := .fileItem (.tocYaml homeToc) }]
  | _ =>
    let entries := generateTocForDirectory t ["Home"]
    if entries.isEmpty then []
    else [{ path := ["Home", "toc.yaml"], item := .fileItem (.tocYaml entries) }]

/-- Embeds `sorted(home_dir.rglob("*"))` restricted to directories: every
directory strictly below `Home`, in path order. -/
def dirsUnderHome (t : Tree) : List (List String) :=
  sortPaths (dedupKeepFirst (t.filterMap fun n =>
    match n.item with
    | .dirItem =>
      if ["Home"].isPrefixOf n.path && decide (1 < n.path.length) then some n.path
      else none
    | _ => none))

/-- The subdirectory pass of `_generate_toc_files`: writes and their
count. Listings are taken against the tree before the pass; the pass only
adds `toc.yaml` files, which the listing filter excludes, and parents are
processed before children, so this matches the imperative walk. -/
def subdirTocWrites (t : Tree) : Tree :=
  (dirsUnderHome t).filterMap fun d =>
    if (d.getLastD "") = "pagetemplates" then none
    else if isSubpath d ["Home", "artifacts"] then none
    else
      let entries := generateTocForDirectory t d
      if entries.isEmpty then none
      else some { path := d ++ ["toc.yaml"], item := .fileItem (.tocYaml entries) }

/-- Embeds `IGGenerator._generate_toc_files`: all writes of the phase, and the
returned count (`2` for root and Home plus one per subdirectory file). -/
def generateTocFiles (t : Tree) (config : JVal) : Tree × Nat :=
  let rootToc : Tree :=
    [{ path := ["toc.yaml"],
       item := .fileItem (.tocYaml [{ name := "Home", filename := "Home" }]) }]
  let homeToc := generateHomeToc t config
  let subWs := subdirTocWrites t
  (rootToc ++ homeToc ++ subWs, 2 + subWs.length)

def idLeInfo : Info → Info → Prop := fun a b => strLeB a.id b.id = true

instance : DecidableRel idLeInfo := fun a b => by
  unfold idLeInfo
  infer_instance

instance : IsTotal Info idLeInfo :=
  ⟨fun a b => strLeB_total a.id b.id⟩

instance : IsTrans Info idLeInfo :=
  ⟨fun _ _ _ => strLeB_trans⟩

/-- The top-level `artifacts/toc.yaml` entry list. -/
def artifactsMainToc (t : Tree) (groups : List (String × List Info))
    (examplesList : List Info) : List TocEntry :=
  (if isFileAt t ["Home", "artifacts", "index.page.md"] then
    [{ name := "Index", filename := "index.page.md" }]
  else []) ++
    (sortStrings (groups.map (·.1))).map
      (fun rt => { name := rt, filename := pyLower rt : TocEntry }) ++
    if examplesList.isEmpty then []
    else [{ name := "Examples", filename := "examples" }]

/-- One per-type `artifacts/<type>/toc.yaml` entry list. -/
def typeToc (indexPages : List String) (rt : String) (resources : List Info) :
    List TocEntry :=
  (if indexPages.contains (pyLower rt) then
    [{ name := "Index", filename := "index.page.md" }]
  else []) ++
    (resources.insertionSort idLeInfo).map
      fun r => { name := r.id, filename := r.id ++ ".page.md" }

/-- The `artifacts/examples/toc.yaml` entry list. -/
def examplesToc (indexPages : List String) (examplesList : List Info) :
    List TocEntry :=
  (if indexPages.contains "examples" then
    [{ name := "Index", filename := "index.page.md" }]
  else []) ++
    (examplesList.insertionSort idLeInfo).map
      fun e => { name := e.id, filename := e.id ++ ".page.md" }

/-- Embeds `IGGenerator._generate_artifacts_toc`: its writes, in order. -/
def generateArtifactsToc (t : Tree) (groups : List (String × List Info))
    (examplesList : List Info) (indexPages : List String) : Tree :=
  { path := ["Home", "artifacts", "toc.yaml"],
    item := .fileItem (.tocYaml (artifactsMainToc t groups examplesList)) } ::
    ((sortStrings (groups.map (·.1))).map fun rt =>
      { path := ["Home", "artifacts", pyLower rt, "toc.yaml"],
        item := .fileItem (.tocYaml (typeToc indexPages rt (lookupGroup groups rt))) }) ++
    if examplesList.isEmpty then []
    else
      [{ path := ["Home", "artifacts", "examples", "toc.yaml"],
         item := .fileItem (.tocYaml (examplesToc indexPages examplesList)) }]

/-! ### generator.py: the whole run -/

structure GenResult where
  guideName : String
  resourceCount : Nat
  exampleCount : Nat
  pageCount : Nat
  tocFilesGenerated : Nat
deriving DecidableEq

/-- Embeds `IGGenerator.generate` with validation skipped (the validator reads but
never writes, so it does not affect the produced tree): the guide name, the
ordered effect list relative to the guide output directory, and the result
record. -/
def buildGuide (inp : InputModel) : Except String (String × Tree × GenResult) :=
  match loadGuideConfig inp with
  | .error e => .error e
  | .ok (config, guideName) =>
    let templates := loadTemplates inp
    let t0 : Tree := [{ path := ["Home"], item := Item.dirItem }]
    let t1 := t0 ++ copyRootFiles inp
    match inp.pages with
    | none => .error "Pages directory not found"
    | some pages =>
      let pagesOut := transformPages pages
      let t2 := t1 ++ pagesOut.1 ++ copyPagetemplatesTree inp
      let aout := artifactsPhase templates inp.resources inp.examples
      let t3 := t2 ++ aout.writes
      let idxOut := copyArtifactIndexPages inp
      let t4 := t3 ++ idxOut.1
      let tocOut := generateTocFiles t4 config
      let t5 := t4 ++ tocOut.1
      let t6 := t5 ++ generateArtifactsToc t5 aout.resourcesByType aout.examplesList idxOut.2
      .ok (guideName, t6,
        { guideName := guideName
          resourceCount := resourceCountOf aout.resourcesByType
          exampleCount := aout.examplesList.length
          pageCount := pagesOut.2
          tocFilesGenerated := tocOut.2 })

/-- The output root: guide directory name to its tree. -/
abbrev OutputRoot := List (String × Tree)

/-- Embeds `_setup_output_directory` followed by the build: the existing guide
directory is deleted and the fresh tree takes its place. -/
def setGuideDir (root : OutputRoot) (name : String) (t : Tree) : OutputRoot :=
  (root.filter fun p => !(p.1 == name)) ++ [(name, t)]

/-- A full generation run against an output root. The failure path leaves
the root unchanged in this model; the success path replaces the guide
directory destructively, as `_setup_output_directory` does. -/
def runGenerate (inp : InputModel) (root : OutputRoot) :
    Except String (OutputRoot × GenResult) :=
  match buildGuide inp with
  | .error e => .error e
  | .ok (name, t, res) => .ok (setGuideDir root name t, res)

/-! ### ig_resource.py: pre-flight validation and config loading -/

def igStatusValues : List String := ["draft", "active", "retired", "unknown"]

def requiredIgFields : List String := ["id", "status", "fhirVersion", "canonical"]

/-- The missing-field errors of
`IGResourceGenerator.validate_guide_yaml_for_ig_resource`. -/
def missingFieldErrors (config : JVal) : List String :=
  requiredIgFields.filterMap fun field =>
    let bad :=
      match config.get field with
      | none => true
      | some v => !v.truthy || pyStrip (pyStr v) = ""
    if bad then
      some ("guide.yaml is missing required field for IG resource generation: \x27" ++
        field ++ "\x27")
    else none

/-- The invalid-status error of the pre-flight check: raised for a truthy
status whose trimmed, lower-cased form is outside the enum, and naming that
normalised form. -/
def invalidStatusErrors (config : JVal) : List String :=
  match config.get "status" with
  | none => []
  | some sv =>
    if sv.truthy then
      let s := pyLower (pyStrip (pyStr sv))
      if igStatusValues.contains s then []
      else
        ["Invalid status value \x27" ++ s ++
          "\x27. Must be one of: draft, active, retired, unknown"]
    else []

/-- Embeds `IGResourceGenerator.validate_guide_yaml_for_ig_resource`. The
parse-failure message carries the exception text in the source; the model
keeps its fixed prefix. -/
def validateGuideYamlForIgResource (guideYaml : Option SrcFile) : Bool × List String :=
  match guideYaml with
  | none => (false, ["guide.yaml not found"])
  | some f =>
    match f.parsed with
    | none => (false, ["Error parsing guide.yaml"])
    | some config =>
      if !config.truthy then (false, ["guide.yaml is empty or invalid"])
      else
        let errors := missingFieldErrors config ++ invalidStatusErrors config
        (errors.isEmpty, errors)

structure IgConfig where
  id : String
  status : String
  fhirVersion : String
  canonical : String
  version : Option String
  title : Option String
deriving DecidableEq

/-- The per-field reading of `IGResourceGenerator._load_config`: the trimmed
string form when the value is truthy and non-blank. -/
def igFieldVal (config : JVal) (field : String) : Option String :=
  match config.get field with
  | none => none
  | some v => if v.truthy && pyStrip (pyStr v) ≠ "" then some (pyStrip (pyStr v)) else none

/-- Embeds `IGResourceGenerator._load_config` over the output copy of guide.yaml:
the stored status is the trimmed value lower-cased. -/
def loadIgConfig (guideYaml : Option SrcFile) : Except (List String) IgConfig :=
  match guideYaml with
  | none => .error ["guide.yaml not found in output directory"]
  | some f =>
    match f.parsed with
    | none => .error ["Error reading guide.yaml"]
    | some config =>
      if !config.truthy then .error ["guide.yaml is empty or invalid"]
      else
        let missing := requiredIgFields.filterMap fun field =>
          match igFieldVal config field with
          | none => some ("Missing required field \x27" ++ field ++ "\x27 in guide.yaml")
          | some _ => none
        match igFieldVal config "id", igFieldVal config "status",
            igFieldVal config "fhirVersion", igFieldVal config "canonical" with
        | some i, some s, some fv, some c =>
          .ok
            { id := i
              status := pyLower s
              fhirVersion := fv
              canonical := c
              version := igFieldVal config "version"
              title := igFieldVal config "title" }
        | _, _, _, _ =>
          .error ("IG resource generation requires additional fields in guide.yaml:" ::
            missing)

/-! ### ig_resource.py: duck-typed name/description extraction -/

def joinSpace (parts : List String) : String :=
  String.intercalate " " parts

/-- Embeds `given[]`/`family` parts of one HumanName mapping. -/
def hnParts (fs : List (String × JVal)) : List String :=
  (match lookupField fs "given" with
   | some (.arr gs) => gs.map pyStr
   | _ => []) ++
  match lookupField fs "family" with
  | some f => if f.truthy then [pyStr f] else []
  | none => []

/-- The list loop of `_extract_human_name`: the first element that yields a
name wins; elements yielding nothing are passed over. -/
def hnListLoop : List JVal → Option String
  | [] => none
  | hn :: rest =>
    match hn with
    | .obj fs =>
      if (match lookupField fs "text" with
          | some tv => tv.truthy
          | none => false) then
        some (pyStr ((lookupField fs "text").getD .null))
      else
        let parts := hnParts fs
        if parts.isEmpty then hnListLoop rest else some (joinSpace parts)
    | .str s => some s
    | _ => hnListLoop rest

/-- Embeds `IGResourceGenerator._extract_human_name`. -/
def extractHumanName : JVal → Option String
  | .str s => some s
  | .arr l => hnListLoop l
  | .obj fs =>
    if (match lookupField fs "text" with
        | some tv => tv.truthy
        | none => false) then
      some (pyStr ((lookupField fs "text").getD .null))
    else none
  | _ => none

/-- The coding loop of `_extract_codeable_text`. -/
def codingLoop : List JVal → Option String
  | [] => none
  | c :: rest =>
    match c with
    | .obj cf =>
      if (match lookupField cf "display" with
          | some dv => dv.truthy
          | none => false) then
        some (pyStr ((lookupField cf "display").getD .null))
      else codingLoop rest
    | _ => codingLoop rest

mutual

/-- Embeds `IGResourceGenerator._extract_codeable_text`. -/
def extractCodeableText : JVal → Option String
  | .str s => some s
  | .obj fs =>
    if (match lookupField fs "text" with
        | some tv => tv.truthy
        | none => false) then
      some (pyStr ((lookupField fs "text").getD .null))
    else
      match lookupField fs "coding" with
      | some (.arr cs) => codingLoop cs
      | _ => none
  | .arr l => cctList l
  | _ => none

/-- The list fallback of `_extract_codeable_text`: first truthy extraction
over the elements. -/
def cctList : List JVal → Option String
  | [] => none
  | item :: rest =>
    match extractCodeableText item with
    | some r => if r = "" then cctList rest else some r
    | none => cctList rest

end

/-! ### ig_resource.py: collected resource entries -/

structure ResEntry where
  resourceType : String
  id : String
  isExample : Bool
  name : Option String
  description : Option String
  exampleCanonical : Option String
  url : Option String
deriving DecidableEq

/-- A mapping lookup where a loaded JSON `null` behaves like an absent key
(`resource.get(k)` returns `None` either way). -/
def normGet (j : JVal) (k : String) : Option JVal :=
  match j.get k with
  | some .null => none
  | x => x

/-- Embeds `meta.profile[0]` of an example: `some canonical?` on success, `none`
when the lookup raises in the source (non-mapping `meta`, or indexing a
non-sequence `profile`), which skips the file. A truthy string `profile`
is indexed, yielding its first character. -/
def exampleCanonicalOf (resource : JVal) : Option (Option String) :=
  match resource.get "meta" with
  | none => some none
  | some (.obj mf) =>
    match lookupField mf "profile" with
    | none => some none
    | some pv =>
      if pv.truthy then
        match pv with
        | .arr (p :: _) => some (some (pyStr p))
        | .str s =>
          match s.data with
          | c :: _ => some (some (String.mk [c]))
          | [] => some none
        | _ => none
      else some none
  | some _ => none

/-- Embeds `IGResourceGenerator._parse_resource_file`. -/
def parseResourceFile (f : SrcJson) (isExample : Bool) : Option ResEntry :=
  match f.parsed with
  | none => none
  | some resource =>
    let rt := resource.get "resourceType"
    let rid := resource.get "id"
    if !(truthyOpt rt && truthyOpt rid) then none
    else
      let rtS := pyStr (rt.getD .null)
      let ridS := pyStr (rid.getD .null)
      let nameVal : Option String :=
        match normGet resource "name" with
        | some (.str s) => some s
        | some v =>
          match extractHumanName v with
          | some s => if s = "" then some (formatTitle ridS) else some s
          | none => some (formatTitle ridS)
        | none => some (formatTitle ridS)
      let descVal : Option String :=
        match normGet resource "description" with
        | some (.str s) => some s
        | some v => extractCodeableText v
        | none => none
      if isExample then
        match exampleCanonicalOf resource with
        | none => none
        | some ec =>
          some
            { resourceType := rtS, id := ridS, isExample := true, name := nameVal
              description := descVal, exampleCanonical := ec, url := none }
      else
        let urlVal :=
          match resource.get "url" with
          | some u => if u.truthy then some (pyStr u) else none
          | none => none
        some
          { resourceType := rtS, id := ridS, isExample := false, name := nameVal
            description := descVal, exampleCanonical := none, url := urlVal }

/-- Embeds `IGResourceGenerator._collect_resources`. -/
def collectResources (resources examples : Option (List SrcJson)) : List ResEntry :=
  (match resources with
   | some fs => (globJsonSorted fs).filterMap (parseResourceFile · false)
   | none => []) ++
  match examples with
  | some fs => (globJsonSorted fs).filterMap (parseResourceFile · true)
  | none => []

/-! ### ig_resource.py: the emitted ImplementationGuide document -/

structure IGRefEntry where
  reference : String
  name : Option String
  description : Option String
  exampleCanonical : Option String
  exampleBoolean : Option Bool
deriving DecidableEq

/-- One `definition.resource` entry. -/
def refEntryOf (r : ResEntry) : IGRefEntry :=
  { reference := r.resourceType ++ "/" ++ r.id
    name :=
      match r.name with
      | some s => if s ≠ "" then some s else none
      | none => none
    description :=
      match r.description with
      | some s => if s ≠ "" then some s else none
      | none => none
    exampleCanonical :=
      if r.isExample && (r.exampleCanonical.getD "") ≠ "" then r.exampleCanonical
      else none
    exampleBoolean :=
      if r.isExample then
        if (r.exampleCanonical.getD "") ≠ "" then none else some true
      else some false }

/-- Python `canonical.rstrip("/")`. -/
def rstripSlash (s : String) : String :=
  ⟨(s.data.reverse.dropWhile (· = '/')).reverse⟩

/-- The scalar fields and `definition.resource` of
`IGResourceGenerator._create_ig_resource_r4`. `definition.page` is the
serialised page tree of the `Home/` walk, which is carried separately by
the source and is not inspected by the properties of this development. -/
structure IGDoc where
  id : String
  url : String
  version : Option String
  name : Option String
  title : Option String
  status : String
  fhirVersion : List String
  packageId : String
  definitionResource : Option (List IGRefEntry)
deriving DecidableEq

def createIgResourceR4 (cfg : IgConfig) (resources : List ResEntry) : IGDoc :=
  let canonical := rstripSlash cfg.canonical
  { id := cfg.id
    url := canonical ++ "/ImplementationGuide/" ++ cfg.id
    version := cfg.version
    name := cfg.title.map fun t => pyReplace t (" ") ("")
    title := cfg.title
    status := cfg.status
    fhirVersion := [cfg.fhirVersion]
    packageId := cfg.id
    definitionResource :=
      if resources.isEmpty then none else some (resources.map refEntryOf) }

/-! ### Supporting lemmas: deduplicated listings have no duplicates -/

theorem not_mem_seen_of_mem_dedupAux [BEq α] [LawfulBEq α] {x : α} :
    ∀ {seen l : List α}, x ∈ dedupAux seen l → x ∉ seen := by
  intro seen l
  induction l generalizing seen with
  | nil => intro h; simp [dedupAux] at h
  | cons a as ih =>
    intro h
    by_cases hc : a ∈ seen
    · exact ih (by simpa [dedupAux, hc] using h)
    · have h' : x = a ∨ x ∈ dedupAux (a :: seen) as := by
        simpa [dedupAux, hc] using h
      rcases h' with rfl | h'
      · exact hc
      · have h2 := ih h'
        simp only [List.mem_cons, not_or] at h2
        exact h2.2

theorem dedupAux_nodup [BEq α] [LawfulBEq α] :
    ∀ (l seen : List α), (dedupAux seen l).Nodup
  | [], _ => List.nodup_nil
  | a :: as, seen => by
    by_cases hc : a ∈ seen
    · simpa [dedupAux, hc] using dedupAux_nodup as seen
    · have : (a :: dedupAux (a :: seen) as).Nodup := by
        refine List.nodup_cons.mpr ⟨fun hmem => ?_, dedupAux_nodup as (a :: seen)⟩
        have := not_mem_seen_of_mem_dedupAux hmem
        simp at this
      simpa [dedupAux, hc] using this

theorem dedupKeepFirst_nodup [BEq α] [LawfulBEq α] (l : List α) :
    (dedupKeepFirst l).Nodup :=
  dedupAux_nodup l []

theorem mem_of_mem_dedupAux [BEq α] [LawfulBEq α] {x : α} :
    ∀ {seen l : List α}, x ∈ dedupAux seen l → x ∈ l := by
  intro seen l
  induction l generalizing seen with
  | nil => intro h; simp [dedupAux] at h
  | cons a as ih =>
    intro h
    by_cases hc : a ∈ seen
    · exact List.mem_cons_of_mem a (ih (by simpa [dedupAux, hc] using h))
    · have h' : x = a ∨ x ∈ dedupAux (a :: seen) as := by
        simpa [dedupAux, hc] using h
      rcases h' with rfl | h'
      · exact List.mem_cons_self x as
      · exact List.mem_cons_of_mem a (ih h')

theorem mem_of_mem_dedupKeepFirst [BEq α] [LawfulBEq α] {x : α} {l : List α}
    (h : x ∈ dedupKeepFirst l) : x ∈ l :=
  mem_of_mem_dedupAux h

/-! ### Supporting lemmas: sorted listings are strictly increasing -/

theorem nodup_insertionSort (r : α → α → Prop) [DecidableRel r] {l : List α}
    (h : l.Nodup) : (l.insertionSort r).Nodup :=
  (List.perm_insertionSort r l).nodup_iff.mpr h

theorem sortStrings_strict_chain {l : List String} (h : l.Nodup) :
    List.Chain' (fun a b => strLtB a b = true) (sortStrings l) := by
  have hs : List.Pairwise strLeR (sortStrings l) := List.sorted_insertionSort strLeR l
  have hn : (sortStrings l).Nodup := nodup_insertionSort strLeR h
  exact ((hs.and hn).imp fun hab => strLeB_conn hab.1 hab.2).chain'

theorem sortTocFiles_nonindex_strict {l : List String} (h : l.Nodup) :
    List.Chain' (fun a b => strLtB a b = true)
      ((sortTocFiles l).filter fun n => !(pyLower n == "index.page.md")) := by
  have hs : List.Pairwise tocFileLe (sortTocFiles l) := List.sorted_insertionSort tocFileLe l
  have hsub := List.filter_sublist (p := fun n => !(pyLower n == "index.page.md")) (sortTocFiles l)
  have hpf : List.Pairwise tocFileLe
      ((sortTocFiles l).filter fun n => !(pyLower n == "index.page.md")) :=
    hs.sublist hsub
  have hnf : ((sortTocFiles l).filter fun n => !(pyLower n == "index.page.md")).Nodup :=
    (nodup_insertionSort tocFileLe h).filter _
  have hkey : ∀ x ∈ (sortTocFiles l).filter fun n => !(pyLower n == "index.page.md"),
      tocFileKey x = 1 := by
    intro x hx
    have := List.of_mem_filter hx
    simp only [Bool.not_eq_true', beq_eq_false_iff_ne, ne_eq] at this
    simp [tocFileKey, this]
  refine ((hpf.and hnf).imp_of_mem ?_).chain'
  intro a b ha hb hab
  rcases hab.1 with hlt | ⟨_, hle⟩
  · rw [hkey a ha, hkey b hb] at hlt
    omega
  · exact strLeB_conn hle hab.2

theorem sortTocFiles_index_first {l : List String} {n : String}
    (hn : n ∈ l) (hidx : pyLower n = "index.page.md") :
    ∃ h0 rest, sortTocFiles l = h0 :: rest ∧ pyLower h0 = "index.page.md" := by
  have hmem : n ∈ sortTocFiles l := (List.perm_insertionSort tocFileLe l).mem_iff.mpr hn
  match hst : sortTocFiles l with
  | [] => rw [hst] at hmem; simp at hmem
  | h0 :: rest =>
    refine ⟨h0, rest, rfl, ?_⟩
    rw [hst] at hmem
    rcases List.mem_cons.mp hmem with rfl | hmemr
    · exact hidx
    · have hs : List.Pairwise tocFileLe (sortTocFiles l) :=
        List.sorted_insertionSort tocFileLe l
      rw [hst] at hs
      have hle : tocFileLe h0 n := List.rel_of_pairwise_cons hs hmemr
      have hkn : tocFileKey n = 0 := by simp [tocFileKey, hidx]
      by_cases h : pyLower h0 = "index.page.md"
      · exact h
      · exfalso
        have hk0 : tocFileKey h0 = 1 := by simp [tocFileKey, h]
        rcases hle with hlt | ⟨heq, _⟩
        · omega
        · omega

/-! ### Supporting lemmas: the placeholder scan -/

theorem resolveAux_nil (vars : List (String × String)) :
    ∀ f, resolveAux vars f [] = []
  | 0 => rfl
  | _ + 1 => rfl

theorem findVarMatch_rest_length {cs seg rest : List Char}
    (h : findVarMatch cs = some (seg, rest)) : rest.length < cs.length := by
  unfold findVarMatch at h
  split at h
  case isTrue hp =>
    dsimp only at h
    split at h
    case isTrue => exact absurd h (by simp)
    case isFalse hne =>
      split at h
      case isTrue hb =>
        simp only [Option.some.injEq, Prod.mk.injEq] at h
        obtain ⟨hs, hr⟩ := h
        have hlen : igVarLit.length ≤ cs.length :=
          ( List.isPrefixOf_iff_prefix.mp hp).length_le
        have h9 : igVarLit.length = 9 := by decide
        rw [← hr]
        simp only [List.length_drop]
        omega
      case isFalse => exact absurd h (by simp)
  case isFalse => exact absurd h (by simp)

theorem resolveAux_fuel (vars : List (String × String)) :
    ∀ (f : Nat) (cs : List Char) (g : Nat), cs.length ≤ f → cs.length ≤ g →
      resolveAux vars f cs = resolveAux vars g cs := by
  intro f
  induction f with
  | zero =>
    intro cs g h0 _
    have : cs = [] := List.eq_nil_of_length_eq_zero (Nat.le_zero.mp h0)
    subst this
    rw [resolveAux_nil, resolveAux_nil]
  | succ f ih =>
    intro cs g hf hg
    match cs with
    | [] => rw [resolveAux_nil, resolveAux_nil]
    | c :: cs' =>
      match g with
      | 0 => simp at hg
      | g' + 1 =>
        simp only [resolveAux]
        cases hm : findVarMatch (c :: cs') with
        | none =>
          simp only [hm]
          simp only [List.length_cons] at hf hg
          rw [ih cs' g' (by omega) (by omega)]
        | some pr =>
          obtain ⟨seg, rest⟩ := pr
          have hlt := findVarMatch_rest_length hm
          simp only [hm]
          simp only [List.length_cons] at hlt hf hg
          congr 1
          exact ih rest g' (by omega) (by omega)

theorem findVarMatch_none_of_head {c : Char} (h : c ≠ '\x7b') (cs : List Char) :
    findVarMatch (c :: cs) = none := by
  have hpre : igVarLit.isPrefixOf (c :: cs) = false := by
    have : igVarLit = '\x7b' :: "\x7big-var:".data := rfl
    rw [this]
    simp only [List.isPrefixOf, Bool.and_eq_false_iff]
    left
    simpa using fun he => h he.symm
  simp [findVarMatch, hpre]

theorem resolveAux_braceFreeRun (vars : List (String × String)) :
    ∀ (pre : List Char) (rest : List Char) (f : Nat),
      (∀ c ∈ pre, c ≠ '\x7b') → pre.length + rest.length ≤ f →
      resolveAux vars f (pre ++ rest) = pre ++ resolveAux vars (f - pre.length) rest := by
  intro pre
  induction pre with
  | nil => intro rest f _ _; simp
  | cons c pre' ih =>
    intro rest f hclean hf
    match f with
    | 0 => simp at hf
    | f' + 1 =>
      have hc : c ≠ '\x7b' := hclean c (List.mem_cons_self c pre')
      simp only [List.cons_append, resolveAux, findVarMatch_none_of_head hc,
        List.append_eq]
      rw [ih rest f' (fun x hx => hclean x (List.mem_cons_of_mem c hx))
        (by simp only [List.length_cons] at hf; omega)]
      have harith : f' + 1 - (c :: pre').length = f' - pre'.length := by
        simp only [List.length_cons]
        omega
      rw [harith]

theorem takeWhile_all_append {p : Char → Bool} {seg : List Char} (rest : List Char)
    (h : ∀ c ∈ seg, p c = true) :
    (seg ++ rest).takeWhile p = seg ++ rest.takeWhile p := by
  induction seg with
  | nil => simp
  | cons c cs ih =>
    simp only [List.cons_append, List.takeWhile_cons,
      h c (List.mem_cons_self c cs), if_true]
    rw [ih fun x hx => h x (List.mem_cons_of_mem c hx)]

theorem findVarMatch_placeholder {seg : List Char} (post : List Char)
    (hne : seg ≠ []) (hnb : ∀ c ∈ seg, c ≠ '\x7d') :
    findVarMatch (igVarLit ++ (seg ++ (rbrb ++ post))) = some (seg, post) := by
  have hpre : igVarLit.isPrefixOf (igVarLit ++ (seg ++ (rbrb ++ post))) = true :=
    List.isPrefixOf_iff_prefix.mpr (List.prefix_append _ _)
  have hdrop : (igVarLit ++ (seg ++ (rbrb ++ post))).drop igVarLit.length =
      seg ++ (rbrb ++ post) := List.drop_left _ _
  have htake : (seg ++ (rbrb ++ post)).takeWhile (fun c => c ≠ '\x7d') = seg := by
    rw [takeWhile_all_append _ (fun c hc => by simpa using hnb c hc)]
    have : (rbrb ++ post).takeWhile (fun c => c ≠ '\x7d') = [] := by
      have : rbrb ++ post = '\x7d' :: ('\x7d' :: post) := rfl
      rw [this]
      simp [List.takeWhile_cons]
    rw [this, List.append_nil]
  have hdrop2 : (seg ++ (rbrb ++ post)).drop seg.length = rbrb ++ post :=
    List.drop_left _ _
  have hpre2 : rbrb.isPrefixOf (rbrb ++ post) = true :=
    List.isPrefixOf_iff_prefix.mpr (List.prefix_append _ _)
  simp only [findVarMatch, hpre, if_true, hdrop, htake, hdrop2, hpre2]
  have hse : seg.isEmpty = false := by
    cases seg with
    | nil => exact absurd rfl hne
    | cons a b => rfl
  simp only [hse, Bool.false_eq_true, if_false, if_true]
  rw [List.drop_left' (by rfl : rbrb.length = 2)]

theorem resolveAux_placeholder (vars : List (String × String)) (seg post : List Char)
    (f : Nat) (hne : seg ≠ []) (hnb : ∀ c ∈ seg, c ≠ '\x7d')
    (hf : (igVarLit ++ (seg ++ (rbrb ++ post))).length ≤ f) :
    resolveAux vars f (igVarLit ++ (seg ++ (rbrb ++ post))) =
      (match lookupStr vars (pyStrip ⟨seg⟩) with
       | some v => v.data
       | none => igVarLit ++ seg ++ rbrb) ++ resolveAux vars post.length post := by
  have hlen : (igVarLit ++ (seg ++ (rbrb ++ post))).length =
      9 + seg.length + 2 + post.length := by
    simp only [List.length_append]
    have : igVarLit.length = 9 := by decide
    have h2 : rbrb.length = 2 := by decide
    omega
  match f with
  | 0 => omega
  | f' + 1 =>
    have hcons : igVarLit ++ (seg ++ (rbrb ++ post)) =
        '\x7b' :: ("\x7big-var:".data ++ (seg ++ (rbrb ++ post))) := rfl
    rw [hcons]
    simp only [resolveAux]
    rw [← hcons, findVarMatch_placeholder post hne hnb]
    have hpl : post.length ≤ f' := by omega
    dsimp only
    congr 1
    exact resolveAux_fuel vars f' post post.length hpl (Nat.le_refl _)

/-- The regex substitution on a template decomposed around one placeholder:
the part before it is brace-free, so the scan crosses it unchanged, resolves
the placeholder by the variable lookup, and continues on the rest. -/
theorem resolveTemplate_decomposition (vars : List (String × String))
    (pre seg post : String)
    (hpre : ∀ c ∈ pre.data, c ≠ '\x7b')
    (hne : seg.data ≠ []) (hnb : ∀ c ∈ seg.data, c ≠ '\x7d') :
    resolveTemplateVariables (pre ++ mkPlaceholder seg ++ post) vars =
      pre ++ (match lookupStr vars (pyStrip seg) with
              | some v => v
              | none => mkPlaceholder seg) ++ resolveTemplateVariables post vars := by
  have hdata : (pre ++ mkPlaceholder seg ++ post).data =
      pre.data ++ (igVarLit ++ (seg.data ++ (rbrb ++ post.data))) := by
    simp [mkPlaceholder, String.data_append]
  unfold resolveTemplateVariables
  rw [hdata]
  rw [resolveAux_braceFreeRun vars pre.data _ _ hpre (by simp)]
  rw [resolveAux_placeholder vars seg.data post.data _ hne hnb (by
    simp only [List.length_append]
    omega)]
  apply congrArg String.mk
  cases hl : lookupStr vars (pyStrip seg) with
  | some v => simp [hl, String.data_append, List.append_assoc]
  | none => simp [hl, mkPlaceholder, String.data_append, List.append_assoc]

/-! ### Concrete fixtures -/

/-- A well-formed resource file. -/
def patientFile : SrcJson :=
  { name := "Patient-1.json"
    parsed := some (.obj [("resourceType", .str "Patient"), ("id", .str "1")]) }

/-- A resource file whose JSON lacks `id`. -/
def badFile : SrcJson :=
  { name := "broken.json", parsed := some (.obj [("resourceType", .str "Patient")]) }

/-- A small valid input folder whose `menu` has a single entry that resolves
to no existing target. -/
def sampleInput : InputModel :=
  { guideYaml := some
      { raw := "RAW"
        parsed := some (.obj
          [("title", .str "T"), ("url-key", .str "myig"), ("style-name", .str "s"),
           ("menu", .obj [("X", .str "nope.md")])]) }
    variablesYaml := none
    pagetemplatesArtifacts := none
    pages := some [{ parent := [], name := "Overview.md", content := "hello" }]
    resources := some [patientFile]
    examples := none
    styles := none
    images := none
    pagetemplates := none }

/-- A directory containing an index page, another page and a subdirectory
whose name sorts before the page. -/
def c1Tree : Tree :=
  [{ path := ["Home"], item := .dirItem },
   { path := ["Home", "docs"], item := .dirItem },
   { path := ["Home", "docs", "index.page.md"], item := .fileItem (.text "i") },
   { path := ["Home", "docs", "zebra.page.md"], item := .fileItem (.text "z") },
   { path := ["Home", "docs", "alpha"], item := .dirItem }]

/-- A directory containing a page whose stem has an underscore. -/
def c2Tree : Tree :=
  [{ path := ["Home"], item := .dirItem },
   { path := ["Home", "docs"], item := .dirItem },
   { path := ["Home", "docs", "my_page.page.md"], item := .fileItem (.text "x") }]

/-! ### C2: display names in auto-derived TOCs -/

/-- The display-name rule as the claim states it: hyphens AND underscores
converted to spaces before title-casing. For comparison with the code's
`tocDisplayFile`, which replaces only hyphens. -/
def claimedTocDisplayFile (fname : String) : String :=
  let stem := pyReplace fname (".page.md") ("")
  if pyLower stem = "index" then "Index"
  else pyTitle (pyReplace (pyReplace stem ("-") (" ")) ("_") (" "))

/-- C2 counterexample: a `.page.md` file whose stem contains an underscore
is displayed as `My_Page` by the generator (underscores are not converted
to spaces), while the claim's rule would display `My Page`. -/
theorem c2_counterexample :
    generateTocForDirectory c2Tree ["Home", "docs"] =
      [{ name := "My_Page", filename := "my_page.page.md" }] ∧
    claimedTocDisplayFile "my_page.page.md" = "My Page" ∧
    "My_Page" ≠ "My Page" := by
  refine ⟨by decide, by decide, by decide⟩

/-- C2 (amended): every eligible `.page.md` file of a directory appears in
that directory's auto-derived TOC with display name computed from the stem
(the file name with each `.page.md` occurrence removed) by converting
hyphens only to spaces and then title-casing; a stem that lower-cases to
`index` is displayed as `Index`. -/
theorem c2_display_name_amended (t : Tree) (dir : List String) (fn : String)
    (hmem : fn ∈ tocEligibleFiles t dir) :
    ({ name :=
        if pyLower (pyReplace fn (".page.md") ("")) = "index" then "Index"
        else pyTitle (pyReplace (pyReplace fn (".page.md") ("")) ("-") (" "))
       filename := fn } : TocEntry) ∈ generateTocForDirectory t dir := by
  have hmem2 : fn ∈ sortTocFiles (tocEligibleFiles t dir) :=
    (List.perm_insertionSort tocFileLe _).mem_iff.mpr hmem
  unfold generateTocForDirectory
  apply List.mem_append_left
  exact List.mem_map.mpr ⟨fn, hmem2, rfl⟩

/-- C2 witness: the amended display rule evaluated on the underscore page. -/
theorem c2_display_name_amended_witness :
    ({ name := "My_Page", filename := "my_page.page.md" } : TocEntry) ∈
      generateTocForDirectory c2Tree ["Home", "docs"] := by
  have h := c2_display_name_amended c2Tree ["Home", "docs"] "my_page.page.md" (by decide)
  exact h

/-! ### C6: placeholder substitution -/

/-- A template whose placeholder name itself contains a placeholder. -/
def c6Template : String :=
  "\x7b\x7big-var: \x7b\x7big-var: x\x7d\x7d\x7d\x7d"

/-- C6 counterexample: in `\x7b\x7big-var: \x7b\x7big-var: x\x7d\x7d\x7d\x7d`
the inner text `\x7b\x7big-var: x\x7d\x7d` is an occurrence of the pattern
(the matcher accepts it and strips its name to `x`, a key of the variable
set), yet the substitution leaves the whole template unchanged: the
leftmost scan consumes the outer match, whose unknown name passes through
verbatim, so the inner occurrence with a known name is never replaced. -/
theorem c6_counterexample :
    resolveTemplateVariables c6Template [("x", "V")] = c6Template ∧
    c6Template = "\x7b\x7big-var: " ++ mkPlaceholder " x" ++ "\x7d\x7d" ∧
    findVarMatch (mkPlaceholder " x").data = some ((" x").data, []) ∧
    pyStrip " x" = "x" ∧
    lookupStr [("x", "V")] "x" = some "V" ∧
    resolveTemplateVariables (mkPlaceholder " x") [("x", "V")] = "V" := by
  refine ⟨by decide, by decide, by decide, by decide, by decide, by decide⟩

/-- C6 (amended): for the leftmost non-overlapping occurrences found by the
scan, substitution behaves as claimed: on a template decomposed as a
brace-free prefix, one placeholder, and an arbitrary rest, the prefix
passes through unchanged, the placeholder is replaced by the variable's
value exactly when its stripped name is a key (and is left verbatim
otherwise), and scanning continues on the rest. -/
theorem c6_substitution_amended (vars : List (String × String))
    (pre seg post : String)
    (hpre : ∀ c ∈ pre.data, c ≠ '\x7b')
    (hne : seg.data ≠ []) (hnb : ∀ c ∈ seg.data, c ≠ '\x7d') :
    resolveTemplateVariables (pre ++ mkPlaceholder seg ++ post) vars =
      pre ++ (match lookupStr vars (pyStrip seg) with
              | some v => v
              | none => mkPlaceholder seg) ++ resolveTemplateVariables post vars :=
  resolveTemplate_decomposition vars pre seg post hpre hne hnb

/-- C6 witness: a present variable is substituted, an absent one passes
through character-for-character. -/
theorem c6_substitution_amended_witness :
    resolveTemplateVariables ("a" ++ mkPlaceholder " x " ++ "b") [("x", "V")] = "aVb" ∧
    resolveTemplateVariables ("a" ++ mkPlaceholder " y " ++ "b") [("x", "V")] =
      "a" ++ mkPlaceholder " y " ++ "b" := by
  constructor
  · rw [c6_substitution_amended [("x", "V")] "a" " x " "b" (by decide) (by decide) (by decide)]
    decide
  · rw [c6_substitution_amended [("x", "V")] "a" " y " "b" (by decide) (by decide) (by decide)]
    decide

/-! ### C5: status validation and the emitted status -/

theorem truthy_of_get_some {config : JVal} {k : String} {v : JVal}
    (h : config.get k = some v) : config.truthy = true := by
  cases config with
  | obj fs =>
    cases fs with
    | nil => simp [JVal.get, lookupField] at h
    | cons a l => simp [JVal.truthy]
  | null => simp [JVal.get] at h
  | bool b => simp [JVal.get] at h
  | num n => simp [JVal.get] at h
  | str s => simp [JVal.get] at h
  | arr xs => simp [JVal.get] at h

/-- A guide.yaml whose quoted status value has surrounding whitespace. -/
def c5Config : JVal :=
  .obj [("id", .str "guide1"), ("status", .str " Active "),
        ("fhirVersion", .str "4.0.1"), ("canonical", .str "http://example.org/fhir")]

def c5LoadedConfig : IgConfig :=
  { id := "guide1", status := "active", fhirVersion := "4.0.1",
    canonical := "http://example.org/fhir", version := none, title := none }

/-- C5 counterexample: with `status: " Active "` the pre-flight check
passes and the emitted status field is `"active"`, the trimmed and
lower-cased value — not the lower-cased value `" active "` the claim
describes. -/
theorem c5_counterexample :
    (validateGuideYamlForIgResource (some { raw := "c", parsed := some c5Config })).1 = true ∧
    loadIgConfig (some { raw := "c", parsed := some c5Config }) = .ok c5LoadedConfig ∧
    (createIgResourceR4 c5LoadedConfig []).status = "active" ∧
    pyLower " Active " = " active " ∧
    "active" ≠ " active " := by
  refine ⟨by decide, by rfl, by decide, by decide, by decide⟩

/-- C5 (amended): with the other three required fields present and
non-blank, the pre-flight check accepts a non-empty status string exactly
when its trimmed, lower-cased form is in the enum; on an invalid value it
reports an error naming that trimmed, lower-cased form together with the
valid enum; and the loaded configuration that the emitted resource copies
its status field from holds the trimmed, lower-cased value. -/
theorem c5_status_validation_amended
    (config : JVal) (i s fv c raw : String)
    (hid : config.get "id" = some (.str i)) (hid2 : pyStrip i ≠ "")
    (hfv : config.get "fhirVersion" = some (.str fv)) (hfv2 : pyStrip fv ≠ "")
    (hc : config.get "canonical" = some (.str c)) (hc2 : pyStrip c ≠ "")
    (hs : config.get "status" = some (.str s)) (hs0 : s ≠ "") :
    ((validateGuideYamlForIgResource (some { raw := raw, parsed := some config })).1 = true ↔
      pyLower (pyStrip s) ∈ igStatusValues) ∧
    (pyLower (pyStrip s) ∉ igStatusValues →
      ("Invalid status value \x27" ++ pyLower (pyStrip s) ++
          "\x27. Must be one of: draft, active, retired, unknown") ∈
        (validateGuideYamlForIgResource (some { raw := raw, parsed := some config })).2) ∧
    (∀ cfg, loadIgConfig (some { raw := raw, parsed := some config }) = .ok cfg →
      cfg.status = pyLower (pyStrip s) ∧
      (createIgResourceR4 cfg []).status = pyLower (pyStrip s)) := by
  have htr : config.truthy = true := truthy_of_get_some hid
  have hne : i ≠ "" := fun h => hid2 (by simp [h, pyStrip, stripChars])
  have hnefv : fv ≠ "" := fun h => hfv2 (by simp [h, pyStrip, stripChars])
  have hnec : c ≠ "" := fun h => hc2 (by simp [h, pyStrip, stripChars])
  have hmiss : missingFieldErrors config =
      if pyStrip s = "" then
        ["guide.yaml is missing required field for IG resource generation: \x27status\x27"]
      else [] := by
    simp only [missingFieldErrors, requiredIgFields, List.filterMap_cons,
      List.filterMap_nil, hid, hfv, hc, hs]
    simp only [JVal.truthy, pyStr, hne, hnefv, hnec, hs0, bne_self_eq_false,
      ne_eq, hid2, hfv2, hc2]
    by_cases hss : pyStrip s = "" <;>
      simp [hss, hne, hnefv, hnec, hs0, hid2, hfv2, hc2]
  have hinv : invalidStatusErrors config =
      if pyLower (pyStrip s) ∈ igStatusValues then []
      else ["Invalid status value \x27" ++ pyLower (pyStrip s) ++
        "\x27. Must be one of: draft, active, retired, unknown"] := by
    simp only [invalidStatusErrors, hs, JVal.truthy, pyStr, hs0]
    by_cases hin : pyLower (pyStrip s) ∈ igStatusValues
    · simp [hin, List.elem_iff, hs0]
    · simp [hin, List.elem_iff, hs0]
  refine ⟨?_, ?_, ?_⟩
  · simp only [validateGuideYamlForIgResource, htr, Bool.not_true,
      Bool.false_eq_true, if_false, hmiss, hinv]
    by_cases hin : pyLower (pyStrip s) ∈ igStatusValues
    · have hss : pyStrip s ≠ "" := by
        intro h
        rw [h] at hin
        exact absurd hin (by decide)
      simp [hin, hss]
    · by_cases hss : pyStrip s = ""
      · simp [hin, hss]
        decide
      · simp [hin, hss]
  · intro hin
    simp only [validateGuideYamlForIgResource, htr, Bool.not_true,
      Bool.false_eq_true, if_false, hmiss, hinv, if_neg hin]
    by_cases hss : pyStrip s = "" <;> simp only [hss, if_true, if_false] <;>
      exact List.mem_append_right _ (List.mem_singleton.mpr rfl)
  · intro cfg hcfg
    have hival : igFieldVal config "id" = some (pyStrip i) := by
      simp [igFieldVal, hid, JVal.truthy, pyStr, hne, hid2]
    have hfval : igFieldVal config "fhirVersion" = some (pyStrip fv) := by
      simp [igFieldVal, hfv, JVal.truthy, pyStr, hnefv, hfv2]
    have hcval : igFieldVal config "canonical" = some (pyStrip c) := by
      simp [igFieldVal, hc, JVal.truthy, pyStr, hnec, hc2]
    by_cases hss : pyStrip s = ""
    · exfalso
      have hsval : igFieldVal config "status" = none := by
        simp [igFieldVal, hs, JVal.truthy, pyStr, hss]
      simp only [loadIgConfig, htr, Bool.not_true, Bool.false_eq_true, if_false,
        hival, hsval, hfval, hcval] at hcfg
      exact absurd hcfg (by simp)
    · have hsval : igFieldVal config "status" = some (pyStrip s) := by
        simp [igFieldVal, hs, JVal.truthy, pyStr, hs0, hss]
      simp only [loadIgConfig, htr, Bool.not_true, Bool.false_eq_true, if_false,
        hival, hsval, hfval, hcval, Except.ok.injEq] at hcfg
      rw [← hcfg]
      exact ⟨rfl, rfl⟩

/-- C5 witness: the amended statement applied to the fixture config. -/
theorem c5_status_validation_amended_witness :
    (validateGuideYamlForIgResource (some { raw := "c", parsed := some c5Config })).1 = true ↔
      pyLower (pyStrip " Active ") ∈ igStatusValues :=
  (c5_status_validation_amended c5Config "guide1" " Active " "4.0.1"
    "http://example.org/fhir" "c" rfl (by decide) rfl (by decide) rfl (by decide) rfl
    (by decide)).1

/-! ### C8: structured HumanName extraction -/

/-- The list value whose first element yields no name. -/
def c8NameValue : JVal := .arr [.obj [], .obj [("text", .str "Bob")]]

def c8Resource : JVal :=
  .obj [("resourceType", .str "Patient"), ("id", .str "p1"), ("name", c8NameValue)]

/-- The extraction rule as the claim states it: for a list value the first
list element wins (preferring `.text`, else joining `given[]` and
`family`), yielding nothing when that first element yields nothing. For
comparison with the code's `extractHumanName`, whose loop skips elements
that yield nothing. -/
def claimedHumanNameFirstElement : JVal → Option String
  | .str s => some s
  | .arr [] => none
  | .arr (hn :: _) =>
    (match hn with
     | .obj fs =>
       if (match lookupField fs "text" with
           | some tv => tv.truthy
           | none => false) then
         some (pyStr ((lookupField fs "text").getD .null))
       else
         let parts := hnParts fs
         if parts.isEmpty then none else some (joinSpace parts)
     | .str s => some s
     | _ => none)
  | .obj fs =>
    if (match lookupField fs "text" with
        | some tv => tv.truthy
        | none => false) then
      some (pyStr ((lookupField fs "text").getD .null))
    else none
  | _ => none

/-- C8 counterexample: for `name = [{}, {"text": "Bob"}]` the first list
element yields nothing, so under the claim the extraction yields nothing
and the display name falls back to the title-cased id `P1`; the code skips
the empty element and resolves `Bob`. -/
theorem c8_counterexample :
    parseResourceFile { name := "p.json", parsed := some c8Resource } false =
      some { resourceType := "Patient", id := "p1", isExample := false,
             name := some "Bob", description := none, exampleCanonical := none,
             url := none } ∧
    extractHumanName c8NameValue = some "Bob" ∧
    claimedHumanNameFirstElement c8NameValue = none ∧
    formatTitle "p1" = "P1" ∧
    (some "Bob" : Option String) ≠ some "P1" := by
  refine ⟨by decide, by decide, by decide, by decide, by decide⟩

/-- C8 (amended): for a list value the first list element that yields a
name wins — the loop is the first-hit search over the per-element
extraction (prefer `.text`, else join `given[]` and `family`, a string
element is taken as is) — and when the resolved extraction yields nothing
(or an empty string) the display name falls back to the title-cased id. -/
theorem c8_human_name_amended :
    (∀ l : List JVal,
      extractHumanName (.arr l) = l.findSome? fun hn =>
        match hn with
        | .obj fs =>
          if (match lookupField fs "text" with
              | some tv => tv.truthy
              | none => false) then
            some (pyStr ((lookupField fs "text").getD .null))
          else
            if (hnParts fs).isEmpty then none else some (joinSpace (hnParts fs))
        | .str s => some s
        | _ => none) ∧
    (∀ (nm : String) (resource : JVal) (e : ResEntry) (v : JVal),
      parseResourceFile { name := nm, parsed := some resource } false = some e →
      normGet resource "name" = some v → (∀ s, v ≠ .str s) →
      e.name = some (match extractHumanName v with
                     | some s => if s = "" then formatTitle e.id else s
                     | none => formatTitle e.id)) := by
  constructor
  · intro l
    show hnListLoop l = _
    induction l with
    | nil => rfl
    | cons hn rest ih =>
      cases hn with
      | obj fs =>
        simp only [hnListLoop, List.findSome?_cons]
        by_cases ht : (match lookupField fs "text" with
            | some tv => tv.truthy
            | none => false) = true
        · simp [ht]
        · simp only [Bool.not_eq_true] at ht
          by_cases hp : (hnParts fs).isEmpty
          · simp [ht, hp, ih]
          · simp [ht, hp]
      | str s => simp [hnListLoop, List.findSome?_cons]
      | null => simp [hnListLoop, List.findSome?_cons, ih]
      | bool b => simp [hnListLoop, List.findSome?_cons, ih]
      | num n => simp [hnListLoop, List.findSome?_cons, ih]
      | arr xs => simp [hnListLoop, List.findSome?_cons, ih]
  · intro nm resource e v hp hv hstr
    unfold parseResourceFile at hp
    split at hp
    · exact absurd hp (by simp)
    case h_2 v' heq =>
      have heq' : some resource = some v' := heq
      injection heq' with hres
      subst hres
      simp only [hv] at hp
      cases v with
      | str s => exact absurd rfl (hstr s)
      | null =>
        split at hp
        · exact absurd hp (by simp)
        · simp only [Bool.false_eq_true, if_false, Option.some.injEq] at hp
          rw [← hp]
          rfl
      | bool b =>
        split at hp
        · exact absurd hp (by simp)
        · simp only [Bool.false_eq_true, if_false, Option.some.injEq] at hp
          rw [← hp]
          rfl
      | num n =>
        split at hp
        · exact absurd hp (by simp)
        · simp only [Bool.false_eq_true, if_false, Option.some.injEq] at hp
          rw [← hp]
          rfl
      | arr xs =>
        split at hp
        · exact absurd hp (by simp)
        · simp only [Bool.false_eq_true, if_false, Option.some.injEq] at hp
          rw [← hp]
          cases hx : extractHumanName (.arr xs) with
          | none => simp [hx]
          | some s =>
            by_cases hse : s = "" <;> simp [hx, hse]
      | obj fs =>
        split at hp
        · exact absurd hp (by simp)
        · simp only [Bool.false_eq_true, if_false, Option.some.injEq] at hp
          rw [← hp]
          cases hx : extractHumanName (.obj fs) with
          | none => simp [hx]
          | some s =>
            by_cases hse : s = "" <;> simp [hx, hse]

/-- C8 witness: the amended fallback rule evaluated on the fixture. -/
theorem c8_human_name_amended_witness :
    ({ resourceType := "Patient", id := "p1", isExample := false, name := some "Bob",
       description := none, exampleCanonical := none, url := none } : ResEntry).name =
      some (match extractHumanName c8NameValue with
            | some s => if s = "" then formatTitle "p1" else s
            | none => formatTitle "p1") := by
  exact c8_human_name_amended.2 "p.json" c8Resource _ c8NameValue (by decide) rfl
    (fun s h => JVal.noConfusion h)

/-! ### C4: files lacking resourceType or id are skipped everywhere -/

/-- A resources/examples JSON file that fails to parse or whose parsed
content lacks `resourceType` or `id`. -/
def LacksRequiredIds (b : SrcJson) : Prop :=
  b.parsed = none ∨
    ∃ j, b.parsed = some j ∧ (j.get "resourceType" = none ∨ j.get "id" = none)

theorem parseFhirResource_none_of_lacks {b : SrcJson} (h : LacksRequiredIds b) :
    parseFhirResource b = none := by
  unfold parseFhirResource
  split
  · rfl
  · rcases h with hnone | ⟨j, hj, hmiss⟩
    · rw [hnone]
    · rw [hj]
      rcases hmiss with hm | hm <;> simp [hm, truthyOpt]

theorem parseResourceFile_none_of_lacks {b : SrcJson} (h : LacksRequiredIds b)
    (isEx : Bool) : parseResourceFile b isEx = none := by
  unfold parseResourceFile
  rcases h with hnone | ⟨j, hj, hmiss⟩
  · rw [hnone]
  · rw [hj]
    rcases hmiss with hm | hm <;> simp [hm, truthyOpt]

theorem globJson_filterMap_skip {β : Type} {f : SrcJson → Option β} {b : SrcJson}
    (hb : f b = none) (l1 l2 : List SrcJson) :
    (globJsonSorted (l1 ++ b :: l2)).filterMap f =
      (globJsonSorted (l1 ++ l2)).filterMap f := by
  unfold globJsonSorted
  rw [List.filter_append, List.filter_cons, List.filter_append]
  by_cases hj : strEndsWith b.name (".json") = true
  · simp only [hj, if_true]
    exact filterMap_insertionSort_middle_none nameLeJson hb _ _
  · simp [hj]

/-- C4: a JSON file under `resources/` or `examples/` that fails to parse
or lacks `resourceType`/`id` produces no artifact page, contributes nothing
to the grouped resources, the examples list or the counts, and yields no
`definition.resource` entry in the emitted ImplementationGuide. -/
theorem c4_invalid_resource_skipped
    (tm : List (String × String)) (l1 l2 : List SrcJson) (b : SrcJson)
    (other : Option (List SrcJson)) (hb : LacksRequiredIds b) :
    artifactsPhase tm (some (l1 ++ b :: l2)) other =
      artifactsPhase tm (some (l1 ++ l2)) other ∧
    artifactsPhase tm other (some (l1 ++ b :: l2)) =
      artifactsPhase tm other (some (l1 ++ l2)) ∧
    collectResources (some (l1 ++ b :: l2)) other =
      collectResources (some (l1 ++ l2)) other ∧
    collectResources other (some (l1 ++ b :: l2)) =
      collectResources other (some (l1 ++ l2)) ∧
    (∀ cfg : IgConfig,
      createIgResourceR4 cfg (collectResources (some (l1 ++ b :: l2)) other) =
        createIgResourceR4 cfg (collectResources (some (l1 ++ l2)) other)) := by
  have hpr : parsedResources (l1 ++ b :: l2) = parsedResources (l1 ++ l2) :=
    globJson_filterMap_skip (parseFhirResource_none_of_lacks hb) l1 l2
  have hc1 : (globJsonSorted (l1 ++ b :: l2)).filterMap (parseResourceFile · false) =
      (globJsonSorted (l1 ++ l2)).filterMap (parseResourceFile · false) :=
    globJson_filterMap_skip (parseResourceFile_none_of_lacks hb false) l1 l2
  have hc2 : (globJsonSorted (l1 ++ b :: l2)).filterMap (parseResourceFile · true) =
      (globJsonSorted (l1 ++ l2)).filterMap (parseResourceFile · true) :=
    globJson_filterMap_skip (parseResourceFile_none_of_lacks hb true) l1 l2
  refine ⟨?_, ?_, ?_, ?_, ?_⟩
  · simp only [artifactsPhase, hpr]
  · simp only [artifactsPhase, hpr]
  · simp only [collectResources, hc1]
  · simp only [collectResources, hc2]
  · intro cfg
    simp only [collectResources, hc1]

/-- C4 witness: adding a file without `id` next to a valid one changes
nothing. -/
theorem c4_invalid_resource_skipped_witness :
    artifactsPhase [] (some ([patientFile] ++ badFile :: [])) none =
      artifactsPhase [] (some ([patientFile] ++ [])) none :=
  (c4_invalid_resource_skipped [] [patientFile] [] badFile none
    (Or.inr ⟨_, rfl, Or.inr rfl⟩)).1

/-! ### C9: duplicate (resourceType, id) pairs share one page path -/

/-- C9: two resource files that parse to the same type and id are both
rendered to the same `<type>/<id>.page.md` path in sorted filename order,
the later write determines the final content, and `resource_count` still
reports both, exceeding the single distinct page file. -/
theorem c9_duplicate_ids_overwrite
    (tm : List (String × String)) (n1 n2 : String) (j1 j2 : Option JVal)
    (i1 i2 : Info)
    (h1 : parseFhirResource { name := n1, parsed := j1 } = some i1)
    (h2 : parseFhirResource { name := n2, parsed := j2 } = some i2)
    (hrt : i2.resourceType = i1.resourceType) (hid : i2.id = i1.id)
    (hlt : strLtB n1 n2 = true)
    (hj1 : strEndsWith n1 (".json") = true) (hj2 : strEndsWith n2 (".json") = true) :
    resourceCountOf (artifactsPhase tm
        (some [{ name := n1, parsed := j1 }, { name := n2, parsed := j2 }]) none).resourcesByType = 2 ∧
    (artifactsPhase tm
        (some [{ name := n1, parsed := j1 }, { name := n2, parsed := j2 }]) none).writes =
      [{ path := ["Home", "artifacts"], item := .dirItem },
       { path := ["Home", "artifacts", "index.page.md"],
         item := .fileItem (.text artifactsIndexBody) },
       { path := ["Home", "artifacts", pyLower i1.resourceType], item := .dirItem },
       { path := ["Home", "artifacts", pyLower i1.resourceType, i1.id ++ ".page.md"],
         item := .fileItem (.text (renderResourcePage tm i1.resourceType i1)) },
       { path := ["Home", "artifacts", pyLower i1.resourceType, i1.id ++ ".page.md"],
         item := .fileItem (.text (renderResourcePage tm i1.resourceType i2)) }] ∧
    contentAt (artifactsPhase tm
        (some [{ name := n1, parsed := j1 }, { name := n2, parsed := j2 }]) none).writes
        ["Home", "artifacts", pyLower i1.resourceType, i1.id ++ ".page.md"] =
      some (.text (renderResourcePage tm i1.resourceType i2)) ∧
    (dedupKeepFirst ((artifactsPhase tm
        (some [{ name := n1, parsed := j1 }, { name := n2, parsed := j2 }]) none).writes.filterMap
      fun n =>
        match n.item with
        | .fileItem _ => if n.path.length = 4 then some n.path else none
        | _ => none)).length = 1 := by
  have hle : nameLeJson { name := n1, parsed := j1 } { name := n2, parsed := j2 } := by
    show strLeB n1 n2 = true
    simp only [strLeB, strLtB, Bool.not_eq_true']
    exact clLt_asymm hlt
  have hglob : globJsonSorted [{ name := n1, parsed := j1 }, { name := n2, parsed := j2 }] =
      [{ name := n1, parsed := j1 }, { name := n2, parsed := j2 }] := by
    unfold globJsonSorted
    simp only [List.filter_cons, hj1, hj2, if_true, List.filter_nil]
    simp [List.insertionSort, List.orderedInsert, hle]
  have hparsed : parsedResources [{ name := n1, parsed := j1 }, { name := n2, parsed := j2 }] =
      [i1, i2] := by
    unfold parsedResources
    rw [hglob]
    simp [List.filterMap_cons, h1, h2]
  have hgroups : groupByType [i1, i2] = [(i1.resourceType, [i1, i2])] := by
    simp [groupByType, groupInsert, hrt]
  have hwrites : (artifactsPhase tm
      (some [{ name := n1, parsed := j1 }, { name := n2, parsed := j2 }]) none).writes =
      [{ path := ["Home", "artifacts"], item := .dirItem },
       { path := ["Home", "artifacts", "index.page.md"],
         item := .fileItem (.text artifactsIndexBody) },
       { path := ["Home", "artifacts", pyLower i1.resourceType], item := .dirItem },
       { path := ["Home", "artifacts", pyLower i1.resourceType, i1.id ++ ".page.md"],
         item := .fileItem (.text (renderResourcePage tm i1.resourceType i1)) },
       { path := ["Home", "artifacts", pyLower i1.resourceType, i1.id ++ ".page.md"],
         item := .fileItem (.text (renderResourcePage tm i1.resourceType i2)) }] := by
    simp only [artifactsPhase, hparsed, hgroups]
    simp [sortStrings, List.insertionSort, List.orderedInsert, lookupGroup,
      List.find?, typeWrites, hid]
  refine ⟨?_, hwrites, ?_, ?_⟩
  · simp only [artifactsPhase, hparsed, hgroups]
    simp [resourceCountOf]
  · rw [hwrites]
    unfold contentAt
    simp only [List.filterMap_cons, List.filterMap_nil]
    have hne3 : (["Home", "artifacts", "index.page.md"] : List String) ≠
        ["Home", "artifacts", pyLower i1.resourceType, i1.id ++ ".page.md"] := by
      intro h
      have := congrArg List.length h
      simp at this
    simp [hne3]
  · rw [hwrites]
    simp only [List.filterMap_cons, List.filterMap_nil]
    simp [dedupKeepFirst, dedupAux]

/-- A second file parsing to the same type and id as `patientFile`. -/
def patientDupFile : SrcJson :=
  { name := "Patient-dup.json"
    parsed := some (.obj [("resourceType", .str "Patient"), ("id", .str "1"),
      ("url", .str "http://example.org/p")]) }

/-- C9 witness: the duplicate-id behaviour on two concrete files. -/
theorem c9_duplicate_ids_overwrite_witness :
    resourceCountOf (artifactsPhase [] (some [patientFile, patientDupFile])
        none).resourcesByType = 2 ∧
    contentAt (artifactsPhase [] (some [patientFile, patientDupFile]) none).writes
        ["Home", "artifacts", "patient", "1.page.md"] =
      some (.text (renderResourcePage [] "Patient"
        { resourceType := "Patient", id := "1", filename := "Patient-dup",
          url := "http://example.org/p" })) := by
  have h := c9_duplicate_ids_overwrite [] "Patient-1.json" "Patient-dup.json"
    patientFile.parsed patientDupFile.parsed
    { resourceType := "Patient", id := "1", filename := "Patient-1", url := "" }
    { resourceType := "Patient", id := "1", filename := "Patient-dup",
      url := "http://example.org/p" }
    (by decide) (by decide) rfl rfl (by decide) (by decide) (by decide)
  exact ⟨h.1, h.2.2.1⟩

/-! ### C10: toc_files_generated counts root and Home unconditionally -/

/-- The successful run of the generator on `sampleInput`. -/
def sampleRunOutput : String × Tree × GenResult :=
  match buildGuide sampleInput with
  | .ok x => x
  | .error _ =>
    ("", [],
      { guideName := "", resourceCount := 0, exampleCount := 0, pageCount := 0,
        tocFilesGenerated := 0 })

/-- C10: the reported `toc_files_generated` is always `2` plus the number
of subdirectory TOC files written; the pass writes at most one `Home`
TOC file, and the count plus that number of Home writes always exceeds
the number of files written by exactly one — so whenever the menu resolves
no entry (as in `sampleInput`, where the count is 2 but `Home/toc.yaml`
never appears in the output), the count exceeds the files written. -/
theorem c10_toc_count_exceeds_writes (t : Tree) (config : JVal) :
    (generateTocFiles t config).2 = 2 + (subdirTocWrites t).length ∧
    (generateTocFiles t config).2 + (generateHomeToc t config).length =
      (generateTocFiles t config).1.length + 1 ∧
    (generateHomeToc t config).length ≤ 1 ∧
    buildGuide sampleInput = .ok sampleRunOutput ∧
    sampleRunOutput.2.2.tocFilesGenerated = 2 ∧
    isFileAt sampleRunOutput.2.1 ["Home", "toc.yaml"] = false := by
  refine ⟨rfl, ?_, ?_, rfl, rfl, by rfl⟩
  · simp only [generateTocFiles, List.length_append, List.length_cons,
      List.length_nil]
    omega
  · unfold generateHomeToc
    split
    · dsimp only
      split <;> simp
    · dsimp only
      split <;> simp

/-! ### C3: menu entries referencing Markdown pages -/

theorem resolveMenuEntry_name {t : Tree} {dn : String} {v : JVal} {e : TocEntry}
    (h : resolveMenuEntry t dn v = some e) : e.name = dn := by
  unfold resolveMenuEntry at h
  split at h
  · dsimp only at h
    split at h
    · simp only [Option.some.injEq] at h
      rw [← h]
    · exact absurd h (by simp)
  · split at h
    · dsimp only at h
      split at h
      · simp only [Option.some.injEq] at h
        rw [← h]
      · exact absurd h (by simp)
    · split at h
      · simp only [Option.some.injEq] at h
        rw [← h]
      · exact absurd h (by simp)
  · exact absurd h (by simp)

theorem assoc_value_unique {α β : Type} {l : List (α × β)}
    (hk : (l.map Prod.fst).Nodup) {a : α} {b c : β}
    (h1 : (a, b) ∈ l) (h2 : (a, c) ∈ l) : b = c := by
  induction l with
  | nil => simp at h1
  | cons kv rest ih =>
    simp only [List.map_cons, List.nodup_cons] at hk
    rcases List.mem_cons.mp h1 with rfl | h1'
    · rcases List.mem_cons.mp h2 with h2e | h2'
      · exact (congrArg Prod.snd h2e).symm
      · exact absurd (List.mem_map.mpr ⟨(a, c), h2', rfl⟩) hk.1
    · rcases List.mem_cons.mp h2 with rfl | h2'
      · exact absurd (List.mem_map.mpr ⟨(a, b), h1', rfl⟩) hk.1
      · exact ih hk.2 h1' h2'

/-- Pages containing a Markdown file whose stem is not all lower-case. -/
def c3Pages : List PageFile := [{ parent := [], name := "Overview.md", content := "o" }]

def c3Tree : Tree := (transformPages c3Pages).1

def c3Config : JVal :=
  .obj [("url-key", .str "g"), ("menu", .obj [("Overview", .str "Overview.md")])]

/-- C3 counterexample: the menu value `Overview.md` corresponds to the
transform-generated page `overview.page.md` (lower-cased stem), which
exists in `Home/`; yet the Home TOC built from the menu is empty — the
menu handler checks for `Overview.page.md`, without lower-casing — so no
entry references the existing page and no Home TOC is written at all. -/
theorem c3_counterexample :
    transformPageName "Overview.md" = "overview.page.md" ∧
    isFileAt c3Tree ["Home", "overview.page.md"] = true ∧
    homeTocEntries c3Tree [("Overview", .str "Overview.md")] = [] ∧
    generateHomeToc c3Tree c3Config = [] := by
  refine ⟨by decide, by decide, by decide, by decide⟩

/-- C3 (amended): for a menu entry whose string value ends in `.md`
case-insensitively, the Home TOC contains the entry exactly when a file
named like the value with every (case-sensitive) occurrence of `.md`
replaced by `.page.md` exists under `Home/` — which coincides with the
transform-renamed page only when the value's stem is already lower-case
and its extension is literally `.md`. -/
theorem c3_menu_md_amended (t : Tree) (menuItems : List (String × JVal))
    (name v : String)
    (hkeys : (menuItems.map Prod.fst).Nodup)
    (hmem : (name, JVal.str v) ∈ menuItems)
    (hmd : strEndsWith (pyLower v) (".md") = true) :
    ({ name := name, filename := pyReplace v (".md") (".page.md") } : TocEntry) ∈
        homeTocEntries t menuItems ↔
      isFileAt t (joinRel ["Home"] (pyReplace v (".md") (".page.md"))) = true := by
  constructor
  · intro hin
    obtain ⟨kv, hkv, hres⟩ := List.mem_filterMap.mp hin
    have hn : kv.1 = name := (resolveMenuEntry_name hres).symm
    have hv : kv.2 = JVal.str v := by
      have : (kv.1, kv.2) ∈ menuItems := by simpa using hkv
      rw [hn] at this
      exact assoc_value_unique hkeys this hmem
    rw [hn, hv] at hres
    unfold resolveMenuEntry at hres
    simp only [hmd, if_true] at hres
    split at hres
    case isTrue hcond => exact hcond
    case isFalse => exact absurd hres (by simp)
  · intro hfile
    refine List.mem_filterMap.mpr ⟨(name, JVal.str v), hmem, ?_⟩
    unfold resolveMenuEntry
    simp [hmd, hfile]

/-- C3 witness: the amended rule on a concrete lower-case menu value. -/
theorem c3_menu_md_amended_witness :
    ({ name := "Docs", filename := "docs.page.md" } : TocEntry) ∈
      homeTocEntries
        [{ path := ["Home"], item := Item.dirItem },
         { path := ["Home", "docs.page.md"], item := .fileItem (.text "d") }]
        [("Docs", JVal.str "docs.md")] := by
  have h := c3_menu_md_amended
    [{ path := ["Home"], item := Item.dirItem },
     { path := ["Home", "docs.page.md"], item := .fileItem (.text "d") }]
    [("Docs", JVal.str "docs.md")] "Docs" "docs.md"
    (by simp) (List.mem_singleton.mpr rfl) (by decide)
  exact h.mpr (by decide)

/-! ### C1: TOC ordering -/

theorem generateTocForDirectory_eq (t : Tree) (dir : List String) :
    generateTocForDirectory t dir =
      (sortTocFiles (tocEligibleFiles t dir)).map
        (fun n => { name := tocDisplayFile n, filename := n }) ++
      (sortStrings (tocEligibleDirs t dir)).map
        (fun n => { name := tocDisplayDir n, filename := n }) := rfl

/-- Fixture infos for the artifacts TOC counterexample. -/
def sdInfo : Info :=
  { resourceType := "StructureDefinition", id := "sd1", filename := "sd1", url := "" }

def exInfo : Info :=
  { resourceType := "Patient", id := "ex1", filename := "ex1", url := "" }

def c1ArtTree : Tree :=
  [{ path := ["Home", "artifacts"], item := .dirItem },
   { path := ["Home", "artifacts", "index.page.md"], item := .fileItem (.text "i") }]

/-- C1 counterexample: in an auto-derived TOC the file `zebra.page.md`
precedes the subdirectory `alpha`, and in the top-level artifacts TOC the
`Examples` entry comes after `structuredefinition` — in both, the entries
after the leading index entry are not alphabetical by filename. -/
theorem c1_counterexample :
    generateTocForDirectory c1Tree ["Home", "docs"] =
      [{ name := "Index", filename := "index.page.md" },
       { name := "Zebra", filename := "zebra.page.md" },
       { name := "Alpha", filename := "alpha" }] ∧
    ¬ List.Chain' (fun a b => strLtB a b = true) ["zebra.page.md", "alpha"] ∧
    artifactsMainToc c1ArtTree [("StructureDefinition", [sdInfo])] [exInfo] =
      [{ name := "Index", filename := "index.page.md" },
       { name := "StructureDefinition", filename := "structuredefinition" },
       { name := "Examples", filename := "examples" }] ∧
    ¬ List.Chain' (fun a b => strLtB a b = true) ["structuredefinition", "examples"] := by
  refine ⟨by decide, ?_, by decide, ?_⟩
  · rw [List.chain'_pair]
    decide
  · rw [List.chain'_pair]
    decide

/-- C1 (amended): in every auto-derived directory TOC an index page, when
listed, is the first entry; the file entries come first and the
subdirectory entries after them, each segment strictly alphabetical (the
file segment once its index entry is set aside). In every per-type and
examples artifacts TOC the optional Index entry is first and the rest is
sorted (non-decreasing) by resource id. In the top-level artifacts TOC the
optional Index entry is first, the resource types follow sorted by type
name, and an Examples entry, if any, is last. -/
theorem c1_toc_ordering_amended (t : Tree) (dir : List String)
    (groups : List (String × List Info)) (examplesList : List Info)
    (indexPages : List String) (rt : String) (resources : List Info) :
    ((∃ n ∈ tocEligibleFiles t dir, pyLower n = "index.page.md") →
      ∃ e0 rest, generateTocForDirectory t dir = e0 :: rest ∧
        pyLower e0.filename = "index.page.md") ∧
    (∃ fs ds, generateTocForDirectory t dir = fs ++ ds ∧
      fs.map TocEntry.filename = sortTocFiles (tocEligibleFiles t dir) ∧
      ds.map TocEntry.filename = sortStrings (tocEligibleDirs t dir) ∧
      List.Chain' (fun a b => strLtB a b = true)
        ((fs.map TocEntry.filename).filter fun n => !(pyLower n == "index.page.md")) ∧
      List.Chain' (fun a b => strLtB a b = true) (ds.map TocEntry.filename)) ∧
    (typeToc indexPages rt resources =
      (if indexPages.contains (pyLower rt) then
        [{ name := "Index", filename := "index.page.md" }]
      else []) ++
        (resources.insertionSort idLeInfo).map
          (fun r => { name := r.id, filename := r.id ++ ".page.md" })) ∧
    List.Chain' (fun a b => strLeB a.name b.name = true)
      ((resources.insertionSort idLeInfo).map
        fun r => ({ name := r.id, filename := r.id ++ ".page.md" } : TocEntry)) ∧
    (examplesToc indexPages examplesList =
      (if indexPages.contains "examples" then
        [{ name := "Index", filename := "index.page.md" }]
      else []) ++
        (examplesList.insertionSort idLeInfo).map
          (fun e => { name := e.id, filename := e.id ++ ".page.md" })) ∧
    List.Chain' (fun a b => strLeB a.name b.name = true)
      ((examplesList.insertionSort idLeInfo).map
        fun e => ({ name := e.id, filename := e.id ++ ".page.md" } : TocEntry)) ∧
    (artifactsMainToc t groups examplesList =
      (if isFileAt t ["Home", "artifacts", "index.page.md"] then
        [{ name := "Index", filename := "index.page.md" }]
      else []) ++
        ((sortStrings (groups.map Prod.fst)).map
          fun rt' => ({ name := rt', filename := pyLower rt' } : TocEntry)) ++
        (if examplesList.isEmpty then []
         else [{ name := "Examples", filename := "examples" }])) ∧
    List.Chain' (fun a b => strLeB a.name b.name = true)
      ((sortStrings (groups.map Prod.fst)).map
        fun rt' => ({ name := rt', filename := pyLower rt' } : TocEntry)) := by
  have hfnodup : (tocEligibleFiles t dir).Nodup :=
    (dedupKeepFirst_nodup _).filter _
  have hdnodup : (tocEligibleDirs t dir).Nodup :=
    (dedupKeepFirst_nodup _).filter _
  have hfid : (TocEntry.filename ∘ fun n =>
      ({ name := tocDisplayFile n, filename := n } : TocEntry)) = id := rfl
  have hdid : (TocEntry.filename ∘ fun n =>
      ({ name := tocDisplayDir n, filename := n } : TocEntry)) = id := rfl
  refine ⟨?_, ?_, rfl, ?_, rfl, ?_, rfl, ?_⟩
  · rintro ⟨n, hn, hidx⟩
    obtain ⟨h0, rest, hsort, hh⟩ := sortTocFiles_index_first hn hidx
    rw [generateTocForDirectory_eq, hsort, List.map_cons, List.cons_append]
    exact ⟨_, _, rfl, hh⟩
  · refine ⟨_, _, generateTocForDirectory_eq t dir, ?_, ?_, ?_, ?_⟩
    · rw [List.map_map, hfid, List.map_id]
    · rw [List.map_map, hdid, List.map_id]
    · rw [List.map_map, hfid, List.map_id]
      exact sortTocFiles_nonindex_strict hfnodup
    · rw [List.map_map, hdid, List.map_id]
      exact sortStrings_strict_chain hdnodup
  · have hs : List.Pairwise idLeInfo (resources.insertionSort idLeInfo) :=
      List.sorted_insertionSort idLeInfo resources
    exact (List.chain'_map _).mpr hs.chain'
  · have hs : List.Pairwise idLeInfo (examplesList.insertionSort idLeInfo) :=
      List.sorted_insertionSort idLeInfo examplesList
    exact (List.chain'_map _).mpr hs.chain'
  · have hs : List.Pairwise strLeR (sortStrings (groups.map Prod.fst)) :=
      List.sorted_insertionSort strLeR (groups.map Prod.fst)
    exact (List.chain'_map _).mpr hs.chain'

/-- C1 witness: the index page of the fixture directory heads its TOC. -/
theorem c1_toc_ordering_amended_witness :
    ∃ e0 rest, generateTocForDirectory c1Tree ["Home", "docs"] = e0 :: rest ∧
      pyLower e0.filename = "index.page.md" :=
  (c1_toc_ordering_amended c1Tree ["Home", "docs"] [] [] [] "" []).1
    ⟨"index.page.md", by decide, by decide⟩

/-! ### C7: regeneration is idempotent -/

theorem setGuideDir_idem (root : OutputRoot) (nm : String) (t : Tree) :
    setGuideDir (setGuideDir root nm t) nm t = setGuideDir root nm t := by
  unfold setGuideDir
  rw [List.filter_append, List.filter_filter]
  simp

/-- C7: a second generation run with the same input against the output
root produced by the first run succeeds with the same result and leaves
the output root byte-for-byte identical — the guide directory is deleted
and rebuilt deterministically from the input alone. -/
theorem c7_regeneration_idempotent (inp : InputModel) (root root' : OutputRoot)
    (res : GenResult) (h : runGenerate inp root = .ok (root', res)) :
    runGenerate inp root' = .ok (root', res) := by
  unfold runGenerate at h ⊢
  cases hb : buildGuide inp with
  | error e =>
    rw [hb] at h
    exact absurd h (by simp)
  | ok x =>
    obtain ⟨nm, t, r⟩ := x
    rw [hb] at h
    simp only [Except.ok.injEq, Prod.mk.injEq] at h
    obtain ⟨h1, h2⟩ := h
    rw [← h1, ← h2]
    dsimp only
    rw [setGuideDir_idem]

/-- The output root and result of the first run on `sampleInput`. -/
def sampleRoot : OutputRoot :=
  match runGenerate sampleInput [] with
  | .ok p => p.1
  | .error _ => []

def sampleRes : GenResult :=
  match runGenerate sampleInput [] with
  | .ok p => p.2
  | .error _ =>
    { guideName := "", resourceCount := 0, exampleCount := 0, pageCount := 0,
      tocFilesGenerated := 0 }

/-- C7 witness: re-running on the root produced by the first run
reproduces it exactly. -/
theorem c7_regeneration_idempotent_witness :
    runGenerate sampleInput sampleRoot = .ok (sampleRoot, sampleRes) :=
  c7_regeneration_idempotent sampleInput [] sampleRoot sampleRes rfl

end SimplifierIG
